import Mathlib

/-!
Verification of the LAI-anonymizer de-identification engine.

This file gives a shallow embedding, in Lean 4, of the derivation and
ingress routines of `src/anonymizer/controller/anonymizer.py` and of the
pseudo-key loading routines of `src/anonymizer/utils/storage.py`, together
with theorems settling the specification claims about them.

Conventions of the embedding:
* Python machine arithmetic is modelled with `Nat`/`Int` (reduction
  `% 2^32` is explicit inside the MD5 core).  The float arithmetic of
  `_hash_time` is modelled exactly in integer half-microseconds (every
  quantity there is an integer multiple of half a microsecond), and the
  float arithmetic of `_round_age` by exact integer rounding; both agree
  with the source's doubles at all magnitudes the claims exercise.
* Python exceptions that escape a function are modelled by `Option`
  results (`none` = an uncaught exception).
* Strings are Lean `String`s; character predicates (`\d` of `re`,
  `str.isdigit`, the whitespace set of `str.strip`) are modelled over the
  ASCII range, which covers every input exercised by the claims.
-/

namespace LAI

/-! ## Character and string helpers (Python semantics) -/

/-- ASCII decimal digit test, the model of `\d`, `str.isdigit` and
`[0-9]` on the inputs considered. -/
def isDig (c : Char) : Bool := '0' ≤ c && c ≤ '9'

/-- Numeric value of a digit character. -/
def digVal (c : Char) : Nat := c.toNat - 48

/-- The digit character for `k < 10`. -/
def digChar (k : Nat) : Char := Char.ofNat (48 + k)

/-- ASCII whitespace, the model of the default strip set of `str.strip`. -/
def isPyWs (c : Char) : Bool :=
  c = ' ' || c = '\t' || c = '\n' || c = '\x0d' || c = '\x0b' || c = '\x0c'

/-- List-level model of Python `str.strip()` (both ends, default
whitespace). -/
def pyStripL (l : List Char) : List Char :=
  ((l.dropWhile isPyWs).reverse.dropWhile isPyWs).reverse

/-- Model of Python `str.strip()`. -/
def pyStrip (s : String) : String := ⟨pyStripL s.data⟩

/-- List-level model of Python `str.rstrip()` (trailing whitespace
only). -/
def pyRstripL (l : List Char) : List Char := (l.reverse.dropWhile isPyWs).reverse

/-- Model of Python `str.rstrip()`. -/
def pyRstrip (s : String) : String := ⟨pyRstripL s.data⟩

/-- Digit-run accumulator for `int()`: digits with single underscores
allowed between digits. -/
def pyIntDigitsAux : List Char → Nat → Option Nat
  | [], acc => some acc
  | '_' :: c :: rest, acc =>
      if isDig c then pyIntDigitsAux rest (acc * 10 + digVal c) else none
  | c :: rest, acc =>
      if isDig c then pyIntDigitsAux rest (acc * 10 + digVal c) else none

/-- Parse an unsigned digit run as `int()` does (no sign, no spaces). -/
def pyIntDigits : List Char → Option Nat
  | [] => none
  | '_' :: _ => none
  | l => pyIntDigitsAux l 0

/-- List-level model of Python `int(s)`: optional surrounding whitespace,
optional sign, then digits with optional single underscores between
digits.  `none` models the `ValueError` raised on malformed input. -/
def pyIntL (l : List Char) : Option Int :=
  match pyStripL l with
  | '+' :: rest => (pyIntDigits rest).map (Int.ofNat)
  | '-' :: rest => (pyIntDigits rest).map (fun n => -(Int.ofNat n))
  | rest => (pyIntDigits rest).map (Int.ofNat)

/-- Model of Python `int(s)` on strings. -/
def pyInt (s : String) : Option Int := pyIntL s.data

/-- Split a character list at every comma, the model of
`str.split(",")` (so the empty list yields one empty part). -/
def splitComma : List Char → List (List Char)
  | [] => [[]]
  | ',' :: rest => [] :: splitComma rest
  | c :: rest =>
      match splitComma rest with
      | h :: t => (c :: h) :: t
      | [] => [[c]]

/-- ASCII lower-casing of one character, the model of `str.lower` on the
inputs considered. -/
def lowerChar (c : Char) : Char :=
  if 'A' ≤ c && c ≤ 'Z' then Char.ofNat (c.toNat + 32) else c

/-- ASCII lower-casing of a character list. -/
def lowerL (l : List Char) : List Char := l.map lowerChar

/-- Whether `p` is an initial run of `l` (the model of `str.startswith`). -/
def begMatch : List Char → List Char → Bool
  | [], _ => true
  | _, [] => false
  | p :: ps, c :: cs => p = c && begMatch ps cs

/-- Numeric value of a digit run (the model of `float(digits)` on a
nonempty all-digit string; exact for the magnitudes float represents
exactly). -/
def digitsVal (l : List Char) : Nat := l.foldl (fun a c => a * 10 + digVal c) 0

/-- Two-digit zero-padded decimal, the model of `f"{n:02}"` for `n < 100`. -/
def pad2 (n : Nat) : List Char := [digChar (n / 10 % 10), digChar (n % 10)]

/-- Six-digit zero-padded decimal, the model of `f"{n:06}"` for
`n ≤ 999999`; for `n = 1000000` (which `_hash_time` can produce) the
format yields the seven characters of the number itself, exactly as
Python zero-padding never truncates. -/
def pad6 (n : Nat) : List Char :=
  if n ≤ 999999 then
    [digChar (n / 100000 % 10), digChar (n / 10000 % 10), digChar (n / 1000 % 10),
     digChar (n / 100 % 10), digChar (n / 10 % 10), digChar (n % 10)]
  else
    digChar (n / 1000000 % 10) :: [digChar (n / 100000 % 10), digChar (n / 10000 % 10),
     digChar (n / 1000 % 10), digChar (n / 100 % 10), digChar (n / 10 % 10), digChar (n % 10)]

/-- Minimal decimal representation of a year `1 ≤ y ≤ 9999`, the model of
glibc `strftime("%Y", ...)` which does not zero-pad the year. -/
def yearChars (y : Nat) : List Char :=
  if y < 10 then [digChar y]
  else if y < 100 then [digChar (y / 10), digChar (y % 10)]
  else if y < 1000 then [digChar (y / 100), digChar (y / 10 % 10), digChar (y % 10)]
  else [digChar (y / 1000 % 10), digChar (y / 100 % 10), digChar (y / 10 % 10), digChar (y % 10)]

/-! ## UTF-8 encoding (for `patient_id.encode()`) -/

/-- UTF-8 encoding of one character, as a list of byte values. -/
def utf8Char (c : Char) : List Nat :=
  let n := c.toNat
  if n < 128 then [n]
  else if n < 2048 then [192 + n / 64, 128 + n % 64]
  else if n < 65536 then [224 + n / 4096, 128 + n / 64 % 64, 128 + n % 64]
  else [240 + n / 262144, 128 + n / 4096 % 64, 128 + n / 64 % 64, 128 + n % 64]

/-- Model of `s.encode()`: the UTF-8 bytes of the string. -/
def utf8 (s : String) : List Nat := s.data.flatMap utf8Char

/-! ## MD5 (RFC 1321) over `Nat`, with explicit reduction mod `2^32`

All word values are kept below `2^32`.  The bitwise operations are
implemented by structural recursion on a 32-step fuel so that they reduce
inside the kernel. -/

def w32 : Nat := 4294967296

def band32Aux : Nat → Nat → Nat → Nat
  | 0, _, _ => 0
  | fuel + 1, a, b =>
      (if a % 2 = 1 && b % 2 = 1 then 1 else 0) + 2 * band32Aux fuel (a / 2) (b / 2)

def bor32Aux : Nat → Nat → Nat → Nat
  | 0, _, _ => 0
  | fuel + 1, a, b =>
      (if a % 2 = 1 || b % 2 = 1 then 1 else 0) + 2 * bor32Aux fuel (a / 2) (b / 2)

def bxor32Aux : Nat → Nat → Nat → Nat
  | 0, _, _ => 0
  | fuel + 1, a, b =>
      (if (a % 2 = 1) ≠ (b % 2 = 1) then 1 else 0) + 2 * bxor32Aux fuel (a / 2) (b / 2)

def band32 (a b : Nat) : Nat := band32Aux 32 a b
def bor32 (a b : Nat) : Nat := bor32Aux 32 a b
def bxor32 (a b : Nat) : Nat := bxor32Aux 32 a b

/-- Bitwise complement within 32 bits (inputs are kept `< 2^32`). -/
def bnot32 (a : Nat) : Nat := 4294967295 - a

/-- Left rotation of a 32-bit word by `s` places. -/
def rotl32 (s a : Nat) : Nat := (a * 2 ^ s) % w32 + a / 2 ^ (32 - s)

/-- The 64 MD5 sine-derived constants. -/
def md5K : List Nat :=
  [3614090360, 3905402710, 606105819, 3250441966, 4118548399, 1200080426, 2821735955, 4249261313,
   1770035416, 2336552879, 4294925233, 2304563134, 1804603682, 4254626195, 2792965006, 1236535329,
   4129170786, 3225465664, 643717713, 3921069994, 3593408605, 38016083, 3634488961, 3889429448,
   568446438, 3275163606, 4107603335, 1163531501, 2850285829, 4243563512, 1735328473, 2368359562,
   4294588738, 2272392833, 1839030562, 4259657740, 2763975236, 1272893353, 4139469664, 3200236656,
   681279174, 3936430074, 3572445317, 76029189, 3654602809, 3873151461, 530742520, 3299628645,
   4096336452, 1126891415, 2878612391, 4237533241, 1700485571, 2399980690, 4293915773, 2240044497,
   1873313359, 4264355552, 2734768916, 1309151649, 4149444226, 3174756917, 718787259, 3951481745]

/-- The 64 MD5 per-step rotation amounts. -/
def md5S : List Nat :=
  [7, 12, 17, 22, 7, 12, 17, 22, 7, 12, 17, 22, 7, 12, 17, 22,
   5, 9, 14, 20, 5, 9, 14, 20, 5, 9, 14, 20, 5, 9, 14, 20,
   4, 11, 16, 23, 4, 11, 16, 23, 4, 11, 16, 23, 4, 11, 16, 23,
   6, 10, 15, 21, 6, 10, 15, 21, 6, 10, 15, 21, 6, 10, 15, 21]

/-- One MD5 step at index `i` on state `(a,b,c,d)` with block words `m`. -/
def md5Step (i : Nat) (st : Nat × Nat × Nat × Nat) (m : List Nat) : Nat × Nat × Nat × Nat :=
  let a := st.1; let b := st.2.1; let c := st.2.2.1; let d := st.2.2.2
  let fg : Nat × Nat :=
    if i < 16 then (bor32 (band32 b c) (band32 (bnot32 b) d), i)
    else if i < 32 then (bor32 (band32 d b) (band32 (bnot32 d) c), (5 * i + 1) % 16)
    else if i < 48 then (bxor32 b (bxor32 c d), (3 * i + 5) % 16)
    else (bxor32 c (bor32 b (bnot32 d)), (7 * i) % 16)
  let f := (fg.1 + a + md5K.getD i 0 + m.getD fg.2 0) % w32
  (d, (b + rotl32 (md5S.getD i 0) f) % w32, b, c)

/-- Run MD5 steps `i, i+1, ...` with a structural fuel. -/
def md5Steps : Nat → Nat → (Nat × Nat × Nat × Nat) → List Nat → Nat × Nat × Nat × Nat
  | 0, _, st, _ => st
  | fuel + 1, i, st, m => md5Steps fuel (i + 1) (md5Step i st m) m

/-- Little-endian 32-bit words of a 64-byte block. -/
def md5Words (block : List Nat) : List Nat :=
  (List.range 16).map fun j =>
    block.getD (4 * j) 0 + 256 * block.getD (4 * j + 1) 0 +
      65536 * block.getD (4 * j + 2) 0 + 16777216 * block.getD (4 * j + 3) 0

/-- Process one 64-byte block. -/
def md5Block (st : Nat × Nat × Nat × Nat) (block : List Nat) : Nat × Nat × Nat × Nat :=
  let m := md5Words block
  let r := md5Steps 64 0 st m
  ((st.1 + r.1) % w32, (st.2.1 + r.2.1) % w32, (st.2.2.1 + r.2.2.1) % w32,
    (st.2.2.2 + r.2.2.2) % w32)

/-- Split the padded message into 64-byte blocks (fuel = list length). -/
def md5Chunks : Nat → List Nat → List (List Nat)
  | _, [] => []
  | 0, _ => []
  | fuel + 1, l => l.take 64 :: md5Chunks fuel (l.drop 64)

/-- MD5 padding: `0x80`, zeros to 56 mod 64, then the 64-bit little-endian
bit length. -/
def md5Pad (msg : List Nat) : List Nat :=
  let len := msg.length
  let padLen := (119 - len % 64) % 64
  let bits := (8 * len) % 2 ^ 64
  msg ++ [128] ++ List.replicate padLen 0 ++
    [bits % 256, bits / 256 % 256, bits / 65536 % 256, bits / 16777216 % 256,
     bits / 4294967296 % 256, bits / 1099511627776 % 256,
     bits / 281474976710656 % 256, bits / 72057594037927936 % 256]

/-- Little-endian bytes of a 32-bit word. -/
def leBytes (x : Nat) : List Nat := [x % 256, x / 256 % 256, x / 65536 % 256, x / 16777216 % 256]

/-- The 16 digest bytes of MD5 applied to a byte list. -/
def md5Digest (msg : List Nat) : List Nat :=
  let padded := md5Pad msg
  let st := (md5Chunks padded.length padded).foldl md5Block
    (1732584193, 4023233417, 2562383102, 271733878)
  leBytes st.1 ++ leBytes st.2.1 ++ leBytes st.2.2.1 ++ leBytes st.2.2.2

/-- Digest bytes read as one unsigned big-endian integer: the model of
`int(hashlib.md5(x).hexdigest(), 16)`. -/
def md5IntBE (msg : List Nat) : Nat := (md5Digest msg).foldl (fun acc b => acc * 256 + b) 0

/-- First eight digest bytes as an unsigned big-endian integer: the model
of `int.from_bytes(hashlib.md5(x).digest()[:8], "big")`. -/
def md5First8BE (msg : List Nat) : Nat :=
  ((md5Digest msg).take 8).foldl (fun acc b => acc * 256 + b) 0

/-! ## Proleptic Gregorian calendar (the model of `datetime.date`) -/

/-- A calendar date: year, month, day. -/
structure YMD where
  y : Nat
  m : Nat
  d : Nat
deriving DecidableEq, Repr

/-- Gregorian leap-year rule, as used by `datetime`. -/
def isLeap (y : Nat) : Bool := decide (y % 4 = 0 ∧ (y % 100 ≠ 0 ∨ y % 400 = 0))

/-- Length of month `m` of year `y` (`0` outside `1..12`). -/
def daysInMonth (y m : Nat) : Nat :=
  match m with
  | 1 => 31 | 2 => if isLeap y then 29 else 28 | 3 => 31 | 4 => 30 | 5 => 31 | 6 => 30
  | 7 => 31 | 8 => 31 | 9 => 30 | 10 => 31 | 11 => 30 | 12 => 31
  | _ => 0

/-- Structural validity of a date, without the year-9999 cap of
`datetime.MAXYEAR`. -/
def validNC (x : YMD) : Prop :=
  1 ≤ x.y ∧ 1 ≤ x.m ∧ x.m ≤ 12 ∧ 1 ≤ x.d ∧ x.d ≤ daysInMonth x.y x.m

instance (x : YMD) : Decidable (validNC x) := by unfold validNC; infer_instance

/-- Validity of a date as checked by the `datetime` constructor
(`MINYEAR = 1`, `MAXYEAR = 9999`). -/
def isValidYMD (x : YMD) : Bool := decide (validNC x ∧ x.y ≤ 9999)

/-- The successor day, the model of `+ timedelta(days=1)` (unconstrained
above year 9999; overflow is checked at the use sites). -/
def nextDay (x : YMD) : YMD :=
  if x.d < daysInMonth x.y x.m then ⟨x.y, x.m, x.d + 1⟩
  else if x.m < 12 then ⟨x.y, x.m + 1, 1⟩
  else ⟨x.y + 1, 1, 1⟩

/-- Advance a date by `n` days, the model of `+ timedelta(days=n)`. -/
def iterDays : Nat → YMD → YMD
  | 0, x => x
  | n + 1, x => iterDays n (nextDay x)

/-- Days in months `1, ..., m-1` of year `y`. -/
def daysBeforeMonth (y : Nat) : Nat → Nat
  | 0 => 0
  | m + 1 => daysBeforeMonth y m + daysInMonth y m

/-- Number of leap years among `1, ..., y-1`. -/
def leapsBefore (y : Nat) : Nat := (y - 1) / 4 - (y - 1) / 100 + (y - 1) / 400

/-- Proleptic Gregorian ordinal of a date, the model of
`datetime.toordinal` (so `ordDate ⟨1,1,1⟩ = 1`). -/
def ordDate (x : YMD) : Nat := 365 * (x.y - 1) + leapsBefore x.y + daysBeforeMonth x.y x.m + x.d

/-! ## The `strptime(date, "%Y%m%d")` model

CPython's `_strptime` compiles `%Y` to `\d{4}`, `%m` to
`1[0-2]|0[1-9]|[1-9]` and `%d` to `3[01]|[12]\d|0[1-9]|[1-9]`, requires
the whole string to be consumed, and then validates the fields through
the `datetime` constructor.  Backtracking over the alternations is
modelled explicitly; because of the one-digit alternatives, strings of
length 6 and 7 can parse as well. -/

/-- Match the `%d` directive against the rest of the string (which must
be consumed entirely), in regex alternation order. -/
def tryDay (l : List Char) : Option Nat :=
  match l with
  | [c1, c2] =>
      if c1 = '3' && (c2 = '0' || c2 = '1') then some (30 + digVal c2)
      else if (c1 = '1' || c1 = '2') && isDig c2 then some (10 * digVal c1 + digVal c2)
      else if c1 = '0' && ('1' ≤ c2 && c2 ≤ '9') then some (digVal c2)
      else none
  | [c] => if '1' ≤ c && c ≤ '9' then some (digVal c) else none
  | _ => none

/-- Match `%m` then `%d` against the rest of the string, with regex
backtracking between the month alternatives. -/
def tryMonthDay : List Char → Option (Nat × Nat)
  | c1 :: c2 :: rest =>
      (if c1 = '1' && ('0' ≤ c2 && c2 ≤ '2') then
        (tryDay rest).map (fun d => (10 + digVal c2, d)) else none) <|>
      (if c1 = '0' && ('1' ≤ c2 && c2 ≤ '9') then
        (tryDay rest).map (fun d => (digVal c2, d)) else none) <|>
      (if '1' ≤ c1 && c1 ≤ '9' then
        (tryDay (c2 :: rest)).map (fun d => (digVal c1, d)) else none)
  | _ => none

/-- List-level core of the `strptime(s, "%Y%m%d")` model. -/
def parseDateL : List Char → Option YMD
  | c1 :: c2 :: c3 :: c4 :: rest =>
      if isDig c1 && isDig c2 && isDig c3 && isDig c4 then
        match tryMonthDay rest with
        | some (m, d) =>
            if isValidYMD ⟨((digVal c1 * 10 + digVal c2) * 10 + digVal c3) * 10 + digVal c4, m, d⟩
            then some ⟨((digVal c1 * 10 + digVal c2) * 10 + digVal c3) * 10 + digVal c4, m, d⟩
            else none
        | none => none
      else none
  | _ => none

/-- Model of `datetime.strptime(s, "%Y%m%d")`: `none` is the
`ValueError`. -/
def parseDate (s : String) : Option YMD := parseDateL s.data

/-- Model of `strftime("%Y%m%d")` (glibc: the year is not zero-padded
below 1000, months and days are two digits). -/
def formatYMD (x : YMD) : String := ⟨yearChars x.y ++ pad2 x.m ++ pad2 x.d⟩

/-! ## The date derivations of `AnonymizerController` -/

def DEFAULT_ANON_DATE : String := "20000101"
def DEFAULT_ANON_TIME : String := "000000"

/-- Model of `AnonymizerController.valid_date`: `strptime("%Y%m%d")`
succeeds and the date is not before 1900-01-01. -/
def valid_date (date_str : String) : Bool :=
  match parseDate date_str with
  | some x => if ordDate x < ordDate ⟨1900, 1, 1⟩ then false else true
  | none => false

/-- Model of `AnonymizerController._hash_date`.  `none` models the
uncaught `OverflowError` raised by `datetime + timedelta` when the
shifted date passes `datetime.max` (9999-12-31). -/
def hash_date (date patient_id : String) : Option (Nat × String) :=
  if valid_date date = false || patient_id = "" then some (0, DEFAULT_ANON_DATE)
  else
    match parseDate date with
    | none => none
    | some x =>
        let days_to_increment := md5IntBE (utf8 patient_id) % 3652
        let incremented := iterDays days_to_increment x
        if 9999 < incremented.y then none
        else some (days_to_increment, formatYMD incremented)

/-- Model of `AnonymizerController._modify_date`.  All exceptions of the
body (`ValueError`, `IndexError`) are caught by the source, so the
function is total. -/
def modify_date (date operation : String) : Int × String :=
  if valid_date date = false then (0, DEFAULT_ANON_DATE)
  else
    let op0 := pyStripL operation.data
    let op := if begMatch "@modifydate(".data op0 &&
        (match op0.reverse with | ')' :: _ => true | _ => false)
      then pyStripL ((op0.drop 12).dropLast) else op0
    match parseDate date with
    | none => (0, DEFAULT_ANON_DATE)
    | some o =>
        let parts0 := (splitComma op).map pyStripL
        let parts := if parts0.length = 3 then "this".data :: parts0 else parts0
        if parts.length ≠ 4 then (0, DEFAULT_ANON_DATE)
        else if lowerL (parts.getD 0 []) ≠ "this".data ∧ lowerL (parts.getD 0 []) ≠ "*".data
        then (0, DEFAULT_ANON_DATE)
        else
          let comp := fun (s : List Char) (orig : Nat) =>
            if s = "*".data then some (Int.ofNat orig) else pyIntL s
          match comp (parts.getD 1 []) o.y, comp (parts.getD 2 []) o.m,
            comp (parts.getD 3 []) o.d with
          | some yi, some mi, some di =>
              if decide (1 ≤ yi ∧ yi ≤ 9999 ∧ 1 ≤ mi ∧ mi ≤ 12 ∧ 1 ≤ di ∧
                  di ≤ (daysInMonth yi.toNat mi.toNat : Int)) then
                let x : YMD := ⟨yi.toNat, mi.toNat, di.toNat⟩
                ((ordDate x : Int) - (ordDate o : Int), formatYMD x)
              else (0, DEFAULT_ANON_DATE)
          | _, _, _ => (0, DEFAULT_ANON_DATE)

/-! ## The time derivations of `AnonymizerController`

`valid_time` compiles the DICOM `TM` regular expression
`^([0-2][0-9])([0-5][0-9])?([0-5][0-9]|60)?(\.[0-9]{1,6})?$` over the
right-stripped string and then applies the hour-range and
component-dependency checks; the regex alternation and the backtracking
of the optional groups are modelled explicitly. -/

/-- Match `(\.[0-9]{1,6})?$`: either the end of the string or a dot
followed by one to six digits ending the string. -/
def fracEnd : List Char → Option (Option (List Char))
  | [] => some none
  | c :: ds =>
      if c = '.' then
        if ds ≠ [] ∧ ds.length ≤ 6 ∧ ds.all isDig then some (some ds) else none
      else none

/-- Match `([0-5][0-9]|60)?` then the fraction, in regex alternation
order with backtracking. -/
def secFrac (r : List Char) : Option (Option Nat × Option (List Char)) :=
  (match r with
   | c1 :: c2 :: rest =>
       if ('0' ≤ c1 && c1 ≤ '5') && isDig c2 then
         (fracEnd rest).map (fun f => (some (10 * digVal c1 + digVal c2), f))
       else none
   | _ => none) <|>
  (match r with
   | c1 :: c2 :: rest =>
       if c1 = '6' ∧ c2 = '0' then (fracEnd rest).map (fun f => (some 60, f)) else none
   | _ => none) <|>
  (fracEnd r).map (fun f => ((none : Option Nat), f))

/-- Match the whole `TM` pattern, returning the hour, the optional
minute and second values and the optional fraction digits. -/
def tmMatch : List Char → Option (Nat × Option Nat × Option Nat × Option (List Char))
  | h1 :: h2 :: r0 =>
      if ('0' ≤ h1 && h1 ≤ '2') && isDig h2 then
        ((match r0 with
          | m1 :: m2 :: r1 =>
              if ('0' ≤ m1 && m1 ≤ '5') && isDig m2 then
                (secFrac r1).map (fun sf =>
                  (10 * digVal h1 + digVal h2, some (10 * digVal m1 + digVal m2), sf.1, sf.2))
              else none
          | _ => none) <|>
         (secFrac r0).map (fun sf => (10 * digVal h1 + digVal h2, none, sf.1, sf.2)))
      else none
  | _ => none

/-- Model of `AnonymizerController.valid_time`. -/
def valid_time (time_str : String) : Bool :=
  if time_str = "" then false
  else
    match tmMatch (pyRstripL time_str.data) with
    | none => false
    | some (hh, mmOpt, ssOpt, frOpt) =>
        if 23 < hh then false
        else if mmOpt = none ∧ (ssOpt ≠ none ∨ frOpt ≠ none) then false
        else if ssOpt = none ∧ frOpt ≠ none then false
        else true

/-- Python slice `l[a:b]`. -/
def sliceL (l : List Char) (a b : Nat) : List Char := (l.drop a).take (b - a)

/-- Model of `time_str.split(".", 1)`: the part before the first dot and,
when a dot exists, the part after it. -/
def splitDot1 : List Char → List Char × Option (List Char)
  | [] => ([], none)
  | '.' :: rest => ([], some rest)
  | c :: rest =>
      let br := splitDot1 rest
      (c :: br.1, br.2)

/-- The parsing phase of `_hash_time` (lines `base, *frac_part = ...`
through `total_seconds = ...`): slice out `HH`, `MM`, `SS` with `int()`,
clamp the leap second, left-justify the fraction to six characters and
parse it.  Returns the exact total in microseconds together with
`original_frac_precision`; `none` models an escaping `ValueError` (which
trailing spaces can cause, e.g. `int("  ")`).  For every string accepted
by `valid_time` the sliced substrings are digit runs (possibly with
trailing spaces), so the parsed values are the nonnegative component
values and the `Int.toNat` coercions are exact. -/
def hashTimeParse (data : List Char) : Option (Nat × Nat) :=
  let bf := splitDot1 data
  let base := bf.1
  match pyIntL (sliceL base 0 2) with
  | none => none
  | some hhI =>
      match (if 4 ≤ base.length then pyIntL (sliceL base 2 4) else some 0) with
      | none => none
      | some mmI =>
          match (if 6 ≤ base.length then pyIntL (sliceL base 4 6) else some 0) with
          | none => none
          | some ssI0 =>
              let ssI := if ssI0 = 60 then 59 else ssI0
              let fracDigits := bf.2.getD []
              let prec := fracDigits.length
              match pyIntL (fracDigits ++ List.replicate (6 - prec) '0') with
              | none => none
              | some fr =>
                  some (hhI.toNat * 3600000000 + mmI.toNat * 60000000 +
                    ssI.toNat * 1000000 + fr.toNat, prec)

/-- The anonymized microsecond fraction of `_hash_time`: with `summed`
being `S` half-microseconds, the remainder `S % 2000000` half-microseconds
past the whole anonymized second is halved and rounded half-to-even
(CPython float-to-microsecond rounding). -/
def anonFracOf (S : Nat) : Nat :=
  if S % 2000000 % 2 = 0 then S % 2000000 / 2
  else if S % 2000000 / 2 % 2 = 0 then S % 2000000 / 2 else S % 2000000 / 2 + 1

/-- The formatting phase of the reconstruction: hour, minute and second
fields are floored out of `anon_seconds = S/2` microseconds and the
anonymized fraction is appended truncated to the input's precision. -/
def timeRecon (S prec : Nat) : String :=
  if 0 < prec then
    ⟨pad2 (S / 7200000000) ++ pad2 (S % 7200000000 / 120000000) ++
      pad2 (S % 120000000 / 2000000) ++ '.' :: (pad6 (anonFracOf S)).take prec⟩
  else
    ⟨pad2 (S / 7200000000) ++ pad2 (S % 7200000000 / 120000000) ++
      pad2 (S % 120000000 / 2000000)⟩

/-- Model of `AnonymizerController._hash_time`.  The source computes in
floats; every quantity is an integer number of half-microseconds, and
the model computes that integer exactly:
`summed` is `S` half-microseconds where `S` is the returned
microsecond total plus the offset, `anon_seconds = S/2` microseconds,
and the reconstruction floors the second fields and rounds the
microsecond fraction half-to-even.  The first component of the result is
the applied offset in integer microseconds; the source's float
`offset_seconds` equals it divided by `10^6` exactly. -/
def hash_time (time_str patient_id : String) : Option (Nat × String) :=
  if valid_time time_str = false || patient_id = "" then some (0, DEFAULT_ANON_TIME)
  else
    match hashTimeParse time_str.data with
    | none => none
    | some (totalMicros, prec) =>
        let offMicros := md5First8BE (utf8 patient_id) % 86400000000
        some (offMicros, timeRecon (totalMicros + offMicros) prec)

/-- Microsecond value denoted by a full `HHMMSS[.F]` character list (the
reading under which two anonymized outputs are compared as times). -/
def tmValMicrosL (l : List Char) : Option Nat :=
  match tmMatch l with
  | some (hh, some mm, some ss, fr) =>
      some (hh * 3600000000 + mm * 60000000 + ss * 1000000 +
        (match fr with
         | some ds => digitsVal ds * 10 ^ (6 - ds.length)
         | none => 0))
  | _ => none

/-- Microsecond value denoted by a full `HHMMSS[.F]` time string. -/
def tmValMicros (s : String) : Option Nat := tmValMicrosL s.data

/-- The validity checks `valid_time` applies to a match result (the hour
bound and the component-dependency tests), factored over the stripped
character list. -/
def tmCheck (l : List Char) : Bool :=
  match tmMatch l with
  | none => false
  | some (hh, mmOpt, ssOpt, frOpt) =>
      if 23 < hh then false
      else if mmOpt = none ∧ (ssOpt ≠ none ∨ frOpt ≠ none) then false
      else if ssOpt = none ∧ frOpt ≠ none then false
      else true

/-- From the claim's words: a two-digit hour field in `[0, 23]`. -/
def hhOK (a b : Char) : Bool := isDig a && isDig b && decide (10 * digVal a + digVal b ≤ 23)

/-- From the claim's words: a two-digit minute field in `[0, 59]`. -/
def mmOK (a b : Char) : Bool := isDig a && isDig b && decide (10 * digVal a + digVal b ≤ 59)

/-- From the claim's words: a two-digit second field in `[0, 59]` or the
leap second `60`. -/
def ssOK (a b : Char) : Bool := isDig a && isDig b && decide (10 * digVal a + digVal b ≤ 60)

/-- From the claim's words: an optional fractional part `.F{1,6}`. -/
def fracOK : List Char → Bool
  | [] => true
  | c :: ds => c = '.' && !ds.isEmpty && decide (ds.length ≤ 6) && ds.all isDig

/-- From the claim's words: the DICOM `TM` grammar `HH[MM[SS[.F{1,6}]]]`
with the left-to-right component dependency. -/
def specTM : List Char → Bool
  | [a, b] => hhOK a b
  | [a, b, c, d] => hhOK a b && mmOK c d
  | a :: b :: c :: d :: e :: f :: rest => hhOK a b && mmOK c d && ssOK e f && fracOK rest
  | _ => false

/-- The claim's validity criterion, amended in one point: the code strips
ALL trailing ASCII whitespace (Python `rstrip`), not only spaces. -/
def specTimeValid (s : String) : Bool := specTM (pyRstripL s.data)

/-- Removal of trailing spaces only (the claim's literal reading). -/
def rstripSpacesL (l : List Char) : List Char :=
  (l.reverse.dropWhile (fun c => c = ' ')).reverse

/-- The claim's literal validity criterion: the `TM` grammar after
removing trailing spaces (and nothing else). -/
def claimTimeValid (s : String) : Bool := specTM (rstripSpacesL s.data)

/-! ## Claim C1 -/

/-- The date-validity criterion exactly as the claim words it: a string
of exactly eight digits `YYYYMMDD` denoting a valid calendar date
on-or-after 1900-01-01. -/
def specValidDate (s : String) : Bool :=
  match s.data with
  | [a, b, c, d, e, f, g, h] =>
      if isDig a && isDig b && isDig c && isDig d && isDig e && isDig f && isDig g && isDig h
      then
        isValidYMD ⟨digVal a * 1000 + digVal b * 100 + digVal c * 10 + digVal d,
            digVal e * 10 + digVal f, digVal g * 10 + digVal h⟩ &&
          !(ordDate ⟨digVal a * 1000 + digVal b * 100 + digVal c * 10 + digVal d,
              digVal e * 10 + digVal f, digVal g * 10 + digVal h⟩ < ordDate ⟨1900, 1, 1⟩)
      else false
  | _ => false

/-! ## Claim C2 -/

/-- The `_modify_date` computation as claim C2 words it (amended as the
counterexample forces: the element-name check compares the part
lower-cased, so `"THIS"` and `"This"` are also accepted).  Unwrap an
optional `@modifydate( ... )`; split on commas with trimming; three
parts get `"this"` prepended; exactly four parts are required and the
first, lower-cased, must be `this` or `*`; `*` components keep the
source component, others are parsed as Python integers; the resulting
triple must be a valid calendar date; the result is the signed day
difference together with the modified date. -/
def modifyDateSpec (date operation : String) : Int × String :=
  match parseDate date with
  | none => (0, DEFAULT_ANON_DATE)
  | some o =>
      if ordDate o < ordDate ⟨1900, 1, 1⟩ then (0, DEFAULT_ANON_DATE)
      else
        let op0 := pyStripL operation.data
        let inner := if begMatch "@modifydate(".data op0 &&
            (match op0.reverse with | ')' :: _ => true | _ => false)
          then pyStripL ((op0.drop 12).dropLast) else op0
        let parts0 := (splitComma inner).map pyStripL
        match (if parts0.length = 3 then "this".data :: parts0 else parts0) with
        | [e, ys, ms, ds] =>
            if lowerL e = "this".data ∨ lowerL e = "*".data then
              match (if ys = "*".data then some (Int.ofNat o.y) else pyIntL ys),
                  (if ms = "*".data then some (Int.ofNat o.m) else pyIntL ms),
                  (if ds = "*".data then some (Int.ofNat o.d) else pyIntL ds) with
              | some yv, some mv, some dv =>
                  if decide (1 ≤ yv ∧ yv ≤ 9999 ∧ 1 ≤ mv ∧ mv ≤ 12 ∧ 1 ≤ dv ∧
                      dv ≤ (daysInMonth yv.toNat mv.toNat : Int)) then
                    ((ordDate ⟨yv.toNat, mv.toNat, dv.toNat⟩ : Int) - (ordDate o : Int),
                      formatYMD ⟨yv.toNat, mv.toNat, dv.toNat⟩)
                  else (0, DEFAULT_ANON_DATE)
              | _, _, _ => (0, DEFAULT_ANON_DATE)
            else (0, DEFAULT_ANON_DATE)
        | _ => (0, DEFAULT_ANON_DATE)

/-! ## Claim C8: `_round_age` -/

/-- ASCII alphabetic test, the model of `str.isalpha` on the inputs
considered. -/
def isAlphaPy (c : Char) : Bool := ('a' ≤ c && c ≤ 'z') || ('A' ≤ c && c ≤ 'Z')

/-- Decimal digit characters of a natural number (`str(n)`), via a fuel
large enough to cover all digits. -/
def natReprAux : Nat → Nat → List Char
  | 0, _ => []
  | fuel + 1, n => if n < 10 then [digChar n] else natReprAux fuel (n / 10) ++ [digChar (n % 10)]

/-- The model of Python `str(n)` for a natural number. -/
def natRepr (n : Nat) : List Char := natReprAux (n + 1) n

/-- Round `n / w` to the nearest integer with ties to even, the exact
integer form of Python `round(n / w)` (Python division of the exact
float quotient; exact below the float precision limit). -/
def roundHalfEvenDiv (n w : Nat) : Nat :=
  if 2 * (n % w) < w then n / w
  else if w < 2 * (n % w) then n / w + 1
  else if n / w % 2 = 0 then n / w else n / w + 1

/-- Left-pad with `'0'` when the length is odd (DICOM `AS` parity). -/
def evenPad (l : List Char) : List Char := if l.length % 2 ≠ 0 then '0' :: l else l

/-- Model of `AnonymizerController._round_age` on string input.  The
`None` input branch of the source (returning `""`) lies outside the
`String`-typed embedding.  `none` models the uncaught
`ZeroDivisionError` for width `0`.  Python evaluates
`round(float(digits) / width)` in floating point; the model computes the
same value exactly (they agree whenever the digit value is below
`2^53`). -/
def round_age (age_string : String) (width : Nat) : Option String :=
  let t := pyStripL age_string.data
  if t.length = 0 then some ""
  else
    match t.filter isDig with
    | [] => some ⟨t⟩
    | ds =>
        if width = 0 then none
        else
          let res := natRepr (roundHalfEvenDiv (digitsVal ds) width * width) ++ t.filter isAlphaPy
          some ⟨evenPad res⟩

/-! ## Claims C9 and C10: pseudo-key loading (`utils/storage.py`)

The CSV/XLSX libraries are outside the repository; files are abstracted
to their parsed rows (lists of cell strings), which is the level at
which `_read_pseudo_mapping_csv`/`_read_pseudo_mapping_xlsx` operate
(the two differ only in cell-to-string coercion, identical at this
level). -/

def knownOriginals : List (List Char) :=
  ["original".data, "original id".data, "original patient id".data, "id".data]

def knownAnons : List (List Char) :=
  ["anon".data, "anonymous".data, "anonymized".data, "anonymous id".data, "anonymized id".data,
   "anonymous patient id".data, "anonymized patient id".data]

/-- Index of the first element belonging to `keys` (`next(... , -1)` in
the source, with `none` for `-1`). -/
def firstIdxMem (keys : List (List Char)) : List (List Char) → Option Nat
  | [] => none
  | c :: rest => if c ∈ keys then some 0 else (firstIdxMem keys rest).map (· + 1)

/-- Model of `_detect_header_indices`. -/
def detect_header_indices (header : List String) : Option (Nat × Nat) :=
  match firstIdxMem knownOriginals (header.map fun h => pyStripL (lowerL h.data)),
      firstIdxMem knownAnons (header.map fun h => pyStripL (lowerL h.data)) with
  | some i, some j => some (i, j)
  | _, _ => none

/-- The row loop of `_read_pseudo_mapping_csv`: skip short rows, fail on
an already-seen original or anonymized id, record a pair only when both
trimmed cells are nonempty.  `none` models the raised `ValueError`. -/
def processRows (oi ai : Nat) :
    List (List String) → List String → List String → List (String × String) →
      Option (List (String × String))
  | [], _, _, acc => some acc
  | row :: rest, seenO, seenA, acc =>
      if row.length ≤ max oi ai then processRows oi ai rest seenO seenA acc
      else
        let o := pyStrip (row.getD oi "")
        let a := pyStrip (row.getD ai "")
        if o ∈ seenO then none
        else if a ∈ seenA then none
        else if o ≠ "" ∧ a ≠ "" then
          processRows oi ai rest (o :: seenO) (a :: seenA) (acc ++ [(o, a)])
        else processRows oi ai rest seenO seenA acc

/-- Model of `_read_pseudo_mapping_csv` (and, at row level,
`_read_pseudo_mapping_xlsx`) on the parsed rows of the file: `none`
models every raised `ValueError` (empty file, unrecognizable header,
duplicate id). -/
def readPseudoCsv (rows : List (List String)) : Option (List (String × String)) :=
  match rows with
  | [] => none
  | header :: body =>
      match detect_header_indices header with
      | none => none
      | some (oi, ai) => processRows oi ai body [] [] []

/-- The possible inputs of `load_pseudo_keys`, abstracting the
filesystem: no path configured, a path that does not exist, an existing
file with a suffix and parsed rows, or an existing file whose read
raises an arbitrary non-`ValueError` exception. -/
inductive PseudoInput where
  | noPath : PseudoInput
  | notFound : PseudoInput
  | okFile (suffix : String) (rows : List (List String)) : PseudoInput
  | ioError (suffix : String) : PseudoInput

/-- Model of `load_pseudo_keys`.  Diagnostic messages stand in for the
source's interpolated strings; the claims only depend on their
presence.  Totality of this function reflects that the source catches
`ValueError` and `Exception` around the readers and handles the `None`,
missing-file and unsupported-suffix cases by early return. -/
def load_pseudo_keys (inp : PseudoInput) : List (String × String) × List String :=
  match inp with
  | .noPath => ([], ["No anonymization key file specified, defaulting to automatic generation of anonymized patient IDs."])
  | .notFound => ([], ["Pseudo Anonymization Key File not found"])
  | .okFile suffix rows =>
      if lowerL suffix.data = ".csv".data ∨ lowerL suffix.data = ".xlsx".data then
        match readPseudoCsv rows with
        | some m => (m, [])
        | none => ([], ["ValueError raised while reading the pseudo key file"])
      else ([], ["Unsupported file format"])
  | .ioError _ => ([], ["Unexpected error while loading pseudo key file"])

/-- An input on which the load does not produce a mapping: everything
except a supported, readable file. -/
def pseudoLoadFails (inp : PseudoInput) : Prop :=
  match inp with
  | .noPath => True
  | .notFound => True
  | .okFile suffix rows =>
      (lowerL suffix.data = ".csv".data ∨ lowerL suffix.data = ".xlsx".data) →
        readPseudoCsv rows = none
  | .ioError _ => True

instance (inp : PseudoInput) : Decidable (pseudoLoadFails inp) := by
  unfold pseudoLoadFails
  cases inp <;> infer_instance

/-! ## Claims C3, C4, C5: the transform engine and file ingress

`AnonymizerModel` (`src/anonymizer/model/anonymizer.py`) is not among
the given sources; the operations of it used by the controller
(`get_anon_uid`, `get_next_anon_uid`, `get_anon_acc_no`,
`get_next_anon_acc_no`, `remove_uid`) are modelled from the spec
(§3, §4.4): maps from PHI values to anonymized values with monotonic
counters, anon UIDs of the form `{uid_root}.{site}.{n}`, accession
numbers minted as decimal counter strings, and `remove_uid` reversing
the minting for a UID.  Datasets are modelled as association lists from
canonical tag strings to string values, the fragment of `pydicom` the
dispatched operations touch. -/

/-- Modelled from the spec: the mutable anonymizer model state. -/
structure AnonState where
  uidMap : List (String × String)
  accMap : List (String × String)
  uidCounter : Nat
  accCounter : Nat
  uidRoot : String
  siteId : String
deriving DecidableEq, Repr

def lookupMap (m : List (String × String)) (k : String) : Option String :=
  (m.find? (fun p => p.1 == k)).map (·.2)

/-- Modelled from the spec: `get_anon_uid` looks the PHI UID up. -/
def get_anon_uid (st : AnonState) (phi : String) : Option String := lookupMap st.uidMap phi

/-- Modelled from the spec: `get_next_anon_uid` increments the UID
counter, forms `{uid_root}.{site}.{n}` and records the pair. -/
def get_next_anon_uid (st : AnonState) (phi : String) : String × AnonState :=
  let n := st.uidCounter + 1
  let u := st.uidRoot ++ "." ++ st.siteId ++ "." ++ ⟨natRepr n⟩
  (u, { st with uidCounter := n, uidMap := st.uidMap ++ [(phi, u)] })

/-- Modelled from the spec: `get_anon_acc_no` looks the accession up. -/
def get_anon_acc_no (st : AnonState) (phi : String) : Option String := lookupMap st.accMap phi

/-- Modelled from the spec: `get_next_anon_acc_no` increments the
accession counter and records its decimal string. -/
def get_next_anon_acc_no (st : AnonState) (phi : String) : String × AnonState :=
  let n := st.accCounter + 1
  let a : String := ⟨natRepr n⟩
  (a, { st with accCounter := n, accMap := st.accMap ++ [(phi, a)] })

/-- Modelled from the spec: `remove_uid` reverses the effect of minting
for the given PHI UID. -/
def remove_uid (st : AnonState) (phi : String) : AnonState :=
  { st with uidMap := st.uidMap.filter (fun p => p.1 != phi) }

/-- A dataset fragment: canonical tag (or attribute name) to value. -/
abbrev DS : Type := List (String × String)

def dsGet? (ds : DS) (k : String) : Option String := lookupMap ds k

def dsGet (ds : DS) (k dflt : String) : String := (dsGet? ds k).getD dflt

/-- Deleting an element (`del dataset[tag]`). -/
def dsDelete (ds : DS) (k : String) : DS := List.filter (fun p => p.1 != k) ds

/-- Overwriting an element's value (`dataset[tag].value = v`). -/
def dsSet (ds : DS) (k v : String) : DS := List.map (fun p => if p.1 == k then (p.1, v) else p) ds

/-- ASCII upper-casing of one character (model of `str.upper`). -/
def upperChar (c : Char) : Char :=
  if 'a' ≤ c && c ≤ 'z' then Char.ofNat (c.toNat - 32) else c

/-- Canonicalize a tag string: drop `(`, `)`, spaces and commas
(`str.maketrans("", "", "() ,")`) and upper-case. -/
def cleanTag (s : String) : String :=
  ⟨(s.data.filter (fun c => !(c == '(' || c == ')' || c == ' ' || c == ','))).map upperChar⟩

/-- Substring containment, the model of Python `sub in l`. -/
def containsSub (sub : List Char) : List Char → Bool
  | [] => sub.isEmpty
  | c :: rest => begMatch sub (c :: rest) || containsSub sub rest

/-- Model of `extract_first_digit` (`re.search(r"\d", s)`). -/
def extract_first_digit (l : List Char) : Option Char := l.find? isDig

/-- Model of `operation.replace("@round", "")` (all occurrences,
left-to-right, non-overlapping), with a structural fuel. -/
def replaceRoundAux : Nat → List Char → List Char
  | 0, l => l
  | _, [] => []
  | fuel + 1, c :: rest =>
      if begMatch "@round".data (c :: rest) then replaceRoundAux fuel ((c :: rest).drop 6)
      else c :: replaceRoundAux fuel rest

def replaceRound (l : List Char) : List Char := replaceRoundAux l.length l

/-- Model of `AnonymizerController._anonymize_element` on one visited
element with canonical tag `cleanTag tagRaw` and value `value`.  The
`@param` derivation resolves the script parameter through the `pydicom`
VR dictionary, which is outside the repository; it is abstracted as the
function argument `param`.  `none` models an exception escaping into the
caller's `try` block (possible through `_hash_date` overflow,
`_hash_time` parse failures and `_round_age` with width `0`). -/
def anonymize_element (tagKeep : List (String × String)) (param : String → String → String)
    (st : AnonState) (ds : DS) (tagRaw value : String) : Option (DS × AnonState) :=
  let tag := cleanTag tagRaw
  match lookupMap tagKeep tag with
  | none => some (dsDelete ds tag, st)
  | some operation =>
      if operation = "" ∨ operation = "@keep" then some (ds, st)
      else if containsSub "@empty".data operation.data then some (dsSet ds tag "", st)
      else if containsSub "uid".data operation.data then
        match get_anon_uid st value with
        | some u =>
            if u = "" then
              let r := get_next_anon_uid st value
              some (dsSet ds tag r.1, r.2)
            else some (dsSet ds tag u, st)
        | none =>
            let r := get_next_anon_uid st value
            some (dsSet ds tag r.1, r.2)
      else if containsSub "acc".data operation.data then
        match get_anon_acc_no st value with
        | some a =>
            if a = "" then
              let r := get_next_anon_acc_no st value
              some (dsSet ds tag r.1, r.2)
            else some (dsSet ds tag a, st)
        | none =>
            let r := get_next_anon_acc_no st value
            some (dsSet ds tag r.1, r.2)
      else if containsSub "@hashdate".data operation.data then
        match hash_date value (dsGet ds "PatientID" "") with
        | some pr => some (dsSet ds tag pr.2, st)
        | none => none
      else if containsSub "@modifydate".data operation.data then
        some (dsSet ds tag (modify_date value operation).2, st)
      else if containsSub "@hashtime".data operation.data then
        match hash_time value (dsGet ds "PatientID" "") with
        | some pr => some (dsSet ds tag pr.2, st)
        | none => none
      else if containsSub "@round".data operation.data then
        match extract_first_digit (replaceRound operation.data) with
        | none => some (dsSet ds tag value, st)
        | some c =>
            match round_age value (digVal c) with
            | some res => some (dsSet ds tag res, st)
            | none => none
      else if containsSub "@param".data operation.data then
        some (dsSet ds tag (param tag operation), st)
      else some (ds, st)

/-- The operations of the dispatch, in the claim's priority order. -/
inductive OpAction where
  | empty | uid | acc | hashdate | modifydate | hashtime | round | param
deriving DecidableEq, Repr

/-- The claim's dispatch: the first substring match in the priority
order `@empty, uid, acc, @hashdate, @modifydate, @hashtime, @round,
@param` wins. -/
def dispatchTable : List (List Char × OpAction) :=
  [("@empty".data, .empty), ("uid".data, .uid), ("acc".data, .acc),
   ("@hashdate".data, .hashdate), ("@modifydate".data, .modifydate),
   ("@hashtime".data, .hashtime), ("@round".data, .round), ("@param".data, .param)]

def dispatchOp (op : String) : Option OpAction :=
  (dispatchTable.find? (fun p => containsSub p.1 op.data)).map (·.2)

/-- Return the recorded anon UID, minting one when absent (or mapped to
the empty string, which the controller treats as absent). -/
def get_or_mint_anon_uid (st : AnonState) (v : String) : String × AnonState :=
  match get_anon_uid st v with
  | some u => if u = "" then get_next_anon_uid st v else (u, st)
  | none => get_next_anon_uid st v

/-- Return the recorded anon accession, minting one when absent. -/
def get_or_mint_anon_acc (st : AnonState) (v : String) : String × AnonState :=
  match get_anon_acc_no st v with
  | some a => if a = "" then get_next_anon_acc_no st v else (a, st)
  | none => get_next_anon_acc_no st v

/-- The claim-side semantics of one dispatched action. -/
def applyAction (param : String → String → String) (st : AnonState) (ds : DS)
    (tag value op : String) : Option OpAction → Option (DS × AnonState)
  | some .empty => some (dsSet ds tag "", st)
  | some .uid =>
      let r := get_or_mint_anon_uid st value
      some (dsSet ds tag r.1, r.2)
  | some .acc =>
      let r := get_or_mint_anon_acc st value
      some (dsSet ds tag r.1, r.2)
  | some .hashdate =>
      match hash_date value (dsGet ds "PatientID" "") with
      | some pr => some (dsSet ds tag pr.2, st)
      | none => none
  | some .modifydate => some (dsSet ds tag (modify_date value op).2, st)
  | some .hashtime =>
      match hash_time value (dsGet ds "PatientID" "") with
      | some pr => some (dsSet ds tag pr.2, st)
      | none => none
  | some .round =>
      match extract_first_digit (replaceRound op.data) with
      | none => some (dsSet ds tag value, st)
      | some c =>
          match round_age value (digVal c) with
          | some res => some (dsSet ds tag res, st)
          | none => none
  | some .param => some (dsSet ds tag (param tag op), st)
  | none => some (ds, st)

/-- The quarantine subtrees of §4.6. -/
inductive QDir where
  | INVALID_DICOM | DICOM_READ_ERROR | MISSING_ATTRIBUTES
  | INVALID_STORAGE_CLASS | CAPTURE_PHI_ERROR | STORAGE_ERROR
deriving DecidableEq, Repr

/-- Outcome of `capture_phi` (which lives in the model file outside the
given sources): success with the updated model state, a `ValueError`, or
any other exception. -/
inductive CaptureOutcome where
  | ok (st' : AnonState)
  | valueError
  | otherError

/-- The exception skeleton of `AnonymizerController.anonymize`: capture
PHI (quarantining to `INVALID_DICOM` on `ValueError` and to
`CAPTURE_PHI_ERROR` otherwise), remember the PHI `SOPInstanceUID`, and
run the post-capture work (private-tag removal, always tags, element
walk, stamping, storage), abstracted as `transform`, which returns the
model state at its end — or at the raise — together with `some` output
dataset on success or `none` when any exception escapes.  On that
exception the remembered UID is removed from the model and the dataset
is quarantined under `STORAGE_ERROR`. -/
def anonymize_flow (st0 : AnonState) (ds : DS) (capture : CaptureOutcome)
    (transform : AnonState → DS → AnonState × Option DS) : AnonState × Option QDir :=
  match capture with
  | .valueError => (st0, some .INVALID_DICOM)
  | .otherError => (st0, some .CAPTURE_PHI_ERROR)
  | .ok st1 =>
      let phi_sop := dsGet ds "SOPInstanceUID" ""
      match transform st1 ds with
      | (st2, some _) => (st2, none)
      | (st2, none) => (remove_uid st2 phi_sop, some .STORAGE_ERROR)

/-! ## Claim C5: `anonymize_file` classification -/

def required_attributes : List String :=
  ["SOPClassUID", "SOPInstanceUID", "StudyInstanceUID", "SeriesInstanceUID"]

/-- Model of `AnonymizerController.missing_attributes`. -/
def missing_attributes (ds : DS) : List String :=
  required_attributes.filter (fun a =>
    match dsGet? ds a with
    | none => true
    | some v => v == "")

/-- The ways `dcmread(file)` can end, as caught by `anonymize_file`. -/
inductive ReadOutcome where
  | fileNotFound | isADirectory | permissionError | invalidDicom | otherError
  | ok (ds : DS)

/-- Classified outcome of `anonymize_file`. -/
inductive FileResult where
  | readError                    -- error string returned, nothing quarantined
  | quarantined (q : QDir)
  | alreadyStored                -- "Instance already stored", nothing quarantined
  | anonymized                   -- `anonymize` is invoked
deriving DecidableEq, Repr

/-- Model of `AnonymizerController.anonymize_file` up to the invocation
of `anonymize`. -/
def anonymize_file (st : AnonState) (storageClasses : List String) (read : ReadOutcome) :
    FileResult :=
  match read with
  | .fileNotFound => .readError
  | .isADirectory => .readError
  | .permissionError => .readError
  | .invalidDicom => .quarantined .INVALID_DICOM
  | .otherError => .quarantined .DICOM_READ_ERROR
  | .ok ds =>
      if missing_attributes ds ≠ [] then .quarantined .MISSING_ATTRIBUTES
      else if (get_anon_uid st (dsGet ds "SOPInstanceUID" "")).getD "" ≠ "" then .alreadyStored
      else if dsGet ds "SOPClassUID" "" ∉ storageClasses then
        .quarantined .INVALID_STORAGE_CLASS
      else .anonymized

/-- The claim's classification, in its stated priority order, with
"already has an anon UID" read as the lookup succeeding. -/
def classifySpec (st : AnonState) (storageClasses : List String) (read : ReadOutcome) :
    FileResult :=
  match read with
  | .fileNotFound => .readError
  | .isADirectory => .readError
  | .permissionError => .readError
  | .invalidDicom => .quarantined .INVALID_DICOM
  | .otherError => .quarantined .DICOM_READ_ERROR
  | .ok ds =>
      if ∃ a ∈ required_attributes, dsGet? ds a = none ∨ dsGet? ds a = some "" then
        .quarantined .MISSING_ATTRIBUTES
      else if (get_anon_uid st (dsGet ds "SOPInstanceUID" "")).isSome then .alreadyStored
      else if dsGet ds "SOPClassUID" "" ∉ storageClasses then
        .quarantined .INVALID_STORAGE_CLASS
      else .anonymized

/-! ## Calendar lemmas -/

theorem daysInMonth_le (y m : Nat) : daysInMonth y m ≤ 31 := by
  unfold daysInMonth
  split <;> first | omega | (split <;> omega)

theorem daysInMonth_pos (y m : Nat) (h1 : 1 ≤ m) (h12 : m ≤ 12) : 1 ≤ daysInMonth y m := by
  interval_cases m <;> simp [daysInMonth] <;> split_ifs <;> omega

theorem nextDay_validNC (x : YMD) (h : validNC x) : validNC (nextDay x) := by
  obtain ⟨hy, hm1, hm12, hd1, hd2⟩ := h
  unfold nextDay
  split
  · exact ⟨hy, hm1, hm12, show 1 ≤ x.d + 1 by omega,
      show x.d + 1 ≤ daysInMonth x.y x.m by omega⟩
  · split
    · next hnd hm =>
        exact ⟨hy, show 1 ≤ x.m + 1 by omega, show x.m + 1 ≤ 12 by omega, Nat.le_refl 1,
          daysInMonth_pos x.y (x.m + 1) (by omega) (by omega)⟩
    · exact ⟨show 1 ≤ x.y + 1 by omega, Nat.le_refl 1, show (1 : Nat) ≤ 12 by omega,
        Nat.le_refl 1, by simp [daysInMonth]⟩

theorem nextDay_y_ge (x : YMD) : x.y ≤ (nextDay x).y := by
  unfold nextDay
  split
  · exact Nat.le_refl _
  · split
    · exact Nat.le_refl _
    · exact Nat.le_succ _

theorem leapsBefore_succ (y : Nat) (hy : 1 ≤ y) :
    leapsBefore (y + 1) = leapsBefore y + (if isLeap y then 1 else 0) := by
  obtain ⟨z, rfl⟩ : ∃ z, y = z + 1 := ⟨y - 1, by omega⟩
  simp only [leapsBefore, Nat.add_sub_cancel, isLeap, decide_eq_true_eq]
  rw [Nat.succ_div z 4, Nat.succ_div z 100, Nat.succ_div z 400]
  have d1 : (100 : Nat) ∣ z + 1 → (4 : Nat) ∣ z + 1 := fun h => dvd_trans (by norm_num) h
  have d2 : (400 : Nat) ∣ z + 1 → (100 : Nat) ∣ z + 1 := fun h => dvd_trans (by norm_num) h
  split_ifs <;> omega

theorem daysBeforeMonth12 (y : Nat) :
    daysBeforeMonth y 12 = if isLeap y then 335 else 334 := by
  cases h : isLeap y <;>
    simp [daysBeforeMonth, daysInMonth, h]

theorem ord_nextDay (x : YMD) (h : validNC x) : ordDate (nextDay x) = ordDate x + 1 := by
  obtain ⟨hy, hm1, hm12, hd1, hd2⟩ := h
  unfold nextDay
  split
  · simp only [ordDate]; omega
  · split
    · next hnd hm =>
        have hdbm : daysBeforeMonth x.y (x.m + 1) = daysBeforeMonth x.y x.m + daysInMonth x.y x.m :=
          rfl
        simp only [ordDate] at *
        omega
    · next hnd hm =>
        have hm' : x.m = 12 := by omega
        have hd31 : daysInMonth x.y 12 = 31 := by simp [daysInMonth]
        have hdd : x.d = 31 := by rw [hm'] at hnd hd2; omega
        have hlb := leapsBefore_succ x.y hy
        have hbm12 := daysBeforeMonth12 x.y
        have h1 : daysBeforeMonth (x.y + 1) 1 = 0 := by simp [daysBeforeMonth, daysInMonth]
        simp only [ordDate, hm', hdd, h1]
        split_ifs at hlb hbm12 <;> omega

theorem iterDays_validNC (n : Nat) (x : YMD) (h : validNC x) : validNC (iterDays n x) := by
  induction n generalizing x with
  | zero => exact h
  | succ k ih => exact ih _ (nextDay_validNC x h)

theorem ord_iterDays (n : Nat) (x : YMD) (h : validNC x) :
    ordDate (iterDays n x) = ordDate x + n := by
  induction n generalizing x with
  | zero => rfl
  | succ k ih =>
      have := ih (nextDay x) (nextDay_validNC x h)
      unfold iterDays
      rw [this, ord_nextDay x h]
      omega

theorem iterDays_y_ge (n : Nat) (x : YMD) : x.y ≤ (iterDays n x).y := by
  induction n generalizing x with
  | zero => exact Nat.le_refl _
  | succ k ih => exact Nat.le_trans (nextDay_y_ge x) (ih (nextDay x))

theorem daysBeforeMonth_mono (y : Nat) {m m' : Nat} (h : m ≤ m') :
    daysBeforeMonth y m ≤ daysBeforeMonth y m' := by
  induction m' with
  | zero =>
      have hm : m = 0 := by omega
      subst hm; exact Nat.le_refl _
  | succ k ih =>
      rcases Nat.lt_or_ge m (k + 1) with hlt | hge
      · have h1 := ih (by omega)
        have h2 : daysBeforeMonth y (k + 1) = daysBeforeMonth y k + daysInMonth y k := rfl
        omega
      · have hm : m = k + 1 := by omega
        subst hm; exact Nat.le_refl _

theorem daysBeforeMonth13 (y : Nat) :
    daysBeforeMonth y 13 = if isLeap y then 366 else 365 := by
  cases h : isLeap y <;>
    simp [daysBeforeMonth, daysInMonth, h]

theorem ord_lt_next_jan1 (x : YMD) (h : validNC x) :
    ordDate x < ordDate ⟨x.y + 1, 1, 1⟩ := by
  obtain ⟨hy, hm1, hm12, hd1, hd2⟩ := h
  have hsum : daysBeforeMonth x.y x.m + x.d ≤ daysBeforeMonth x.y (x.m + 1) := by
    have : daysBeforeMonth x.y (x.m + 1) = daysBeforeMonth x.y x.m + daysInMonth x.y x.m := rfl
    omega
  have hmono := daysBeforeMonth_mono x.y (show x.m + 1 ≤ 13 by omega)
  have h13 := daysBeforeMonth13 x.y
  have hlb := leapsBefore_succ x.y hy
  have h1 : daysBeforeMonth (x.y + 1) 1 = 0 := by simp [daysBeforeMonth, daysInMonth]
  simp only [ordDate, h1]
  split_ifs at hlb h13 <;> omega

theorem jan1_validNC {k : Nat} (hk : 1 ≤ k) : validNC ⟨k, 1, 1⟩ :=
  ⟨hk, Nat.le_refl 1, show (1 : Nat) ≤ 12 by omega, Nat.le_refl 1,
    show 1 ≤ daysInMonth k 1 by simp [daysInMonth]⟩

theorem ordJan1_mono {y y' : Nat} (h1 : 1 ≤ y) (h : y ≤ y') :
    ordDate ⟨y, 1, 1⟩ ≤ ordDate ⟨y', 1, 1⟩ := by
  induction y' with
  | zero => omega
  | succ k ih =>
      rcases Nat.lt_or_ge y (k + 1) with hlt | hge
      · have hk : 1 ≤ k := by omega
        have h2 := ih (by omega)
        have h3 : ordDate ⟨k, 1, 1⟩ < ordDate ⟨k + 1, 1, 1⟩ :=
          ord_lt_next_jan1 ⟨k, 1, 1⟩ (jan1_validNC hk)
        omega
      · have hy : y = k + 1 := by omega
        subst hy; exact Nat.le_refl _

theorem year_ge_1900 (x : YMD) (h : validNC x)
    (ho : ordDate ⟨1900, 1, 1⟩ ≤ ordDate x) : 1900 ≤ x.y := by
  by_contra hc
  have hy1 : x.y + 1 ≤ 1900 := by omega
  have h1 := ord_lt_next_jan1 x h
  have h2 := ordJan1_mono (show 1 ≤ x.y + 1 by omega) hy1
  omega

/-! ## Parse/format round trip -/

theorem digVal_digChar : ∀ k, k < 10 → digVal (digChar k) = k := by decide

theorem isDig_digChar : ∀ k, k < 10 → isDig (digChar k) = true := by decide

set_option maxRecDepth 4000 in
theorem tryMonthDay_pad :
    ∀ m, m < 12 → ∀ d, d < 31 →
      tryMonthDay (pad2 (m + 1) ++ pad2 (d + 1)) = some (m + 1, d + 1) := by decide

theorem parse_format (x : YMD) (h : validNC x) (h1 : 1000 ≤ x.y) (h2 : x.y ≤ 9999) :
    parseDate (formatYMD x) = some x := by
  obtain ⟨hy, hm1, hm12, hd1, hd2⟩ := h
  have hd31 : x.d ≤ 31 := le_trans hd2 (daysInMonth_le _ _)
  have hyc : yearChars x.y =
      [digChar (x.y / 1000 % 10), digChar (x.y / 100 % 10), digChar (x.y / 10 % 10),
        digChar (x.y % 10)] := by
    unfold yearChars
    rw [if_neg (by omega), if_neg (by omega), if_neg (by omega)]
  have hmd : tryMonthDay (pad2 x.m ++ pad2 x.d) = some (x.m, x.d) := by
    have := tryMonthDay_pad (x.m - 1) (by omega) (x.d - 1) (by omega)
    have em : x.m - 1 + 1 = x.m := by omega
    have ed : x.d - 1 + 1 = x.d := by omega
    rw [em, ed] at this
    exact this
  have e1 : isDig (digChar (x.y / 1000 % 10)) = true := isDig_digChar _ (Nat.mod_lt _ (by omega))
  have e2 : isDig (digChar (x.y / 100 % 10)) = true := isDig_digChar _ (Nat.mod_lt _ (by omega))
  have e3 : isDig (digChar (x.y / 10 % 10)) = true := isDig_digChar _ (Nat.mod_lt _ (by omega))
  have e4 : isDig (digChar (x.y % 10)) = true := isDig_digChar _ (Nat.mod_lt _ (by omega))
  have v1 : digVal (digChar (x.y / 1000 % 10)) = x.y / 1000 % 10 :=
    digVal_digChar _ (Nat.mod_lt _ (by omega))
  have v2 : digVal (digChar (x.y / 100 % 10)) = x.y / 100 % 10 :=
    digVal_digChar _ (Nat.mod_lt _ (by omega))
  have v3 : digVal (digChar (x.y / 10 % 10)) = x.y / 10 % 10 :=
    digVal_digChar _ (Nat.mod_lt _ (by omega))
  have v4 : digVal (digChar (x.y % 10)) = x.y % 10 := digVal_digChar _ (Nat.mod_lt _ (by omega))
  have hval : ((x.y / 1000 % 10 * 10 + x.y / 100 % 10) * 10 + x.y / 10 % 10) * 10 + x.y % 10 =
      x.y := by omega
  have hiv : isValidYMD ⟨x.y, x.m, x.d⟩ = true := by
    simp only [isValidYMD, decide_eq_true_eq]
    exact ⟨⟨hy, hm1, hm12, hd1, hd2⟩, h2⟩
  show parseDateL (yearChars x.y ++ pad2 x.m ++ pad2 x.d) = some x
  rw [hyc]
  simp only [List.cons_append, List.nil_append]
  simp only [parseDateL]
  rw [e1, e2, e3, e4]
  simp only [Bool.true_and, eq_self_iff_true, if_true]
  simp only [v1, v2, v3, v4, hval]
  rw [hmd]
  dsimp only
  rw [hiv]
  simp

theorem parseDate_isValid {s : String} {x : YMD} (h : parseDate s = some x) :
    validNC x ∧ x.y ≤ 9999 := by
  unfold parseDate parseDateL at h
  split at h
  · split at h
    · split at h
      · split at h
        · next hv =>
            simp only [Option.some.injEq] at h
            subst h
            simpa [isValidYMD] using hv
        · exact absurd h (by simp)
      · exact absurd h (by simp)
    · exact absurd h (by simp)
  · exact absurd h (by simp)

theorem valid_date_elim {s : String} (h : valid_date s = true) :
    ∃ x, parseDate s = some x ∧ validNC x ∧ x.y ≤ 9999 ∧
      ordDate ⟨1900, 1, 1⟩ ≤ ordDate x := by
  unfold valid_date at h
  split at h
  · next x hx =>
      refine ⟨x, hx, (parseDate_isValid hx).1, (parseDate_isValid hx).2, ?_⟩
      split at h
      · exact absurd h (by simp)
      · omega
  · exact absurd h (by simp)

theorem specValidDate_format (x : YMD) (h : validNC x) (h1 : 1000 ≤ x.y) (h2 : x.y ≤ 9999)
    (h3 : ordDate ⟨1900, 1, 1⟩ ≤ ordDate x) : specValidDate (formatYMD x) = true := by
  obtain ⟨hy, hm1, hm12, hd1, hd2⟩ := h
  have hd31 : x.d ≤ 31 := le_trans hd2 (daysInMonth_le _ _)
  have hyc : yearChars x.y =
      [digChar (x.y / 1000 % 10), digChar (x.y / 100 % 10), digChar (x.y / 10 % 10),
        digChar (x.y % 10)] := by
    unfold yearChars
    rw [if_neg (by omega), if_neg (by omega), if_neg (by omega)]
  have e1 : isDig (digChar (x.y / 1000 % 10)) = true := isDig_digChar _ (Nat.mod_lt _ (by omega))
  have e2 : isDig (digChar (x.y / 100 % 10)) = true := isDig_digChar _ (Nat.mod_lt _ (by omega))
  have e3 : isDig (digChar (x.y / 10 % 10)) = true := isDig_digChar _ (Nat.mod_lt _ (by omega))
  have e4 : isDig (digChar (x.y % 10)) = true := isDig_digChar _ (Nat.mod_lt _ (by omega))
  have e5 : isDig (digChar (x.m / 10 % 10)) = true := isDig_digChar _ (Nat.mod_lt _ (by omega))
  have e6 : isDig (digChar (x.m % 10)) = true := isDig_digChar _ (Nat.mod_lt _ (by omega))
  have e7 : isDig (digChar (x.d / 10 % 10)) = true := isDig_digChar _ (Nat.mod_lt _ (by omega))
  have e8 : isDig (digChar (x.d % 10)) = true := isDig_digChar _ (Nat.mod_lt _ (by omega))
  have v1 : digVal (digChar (x.y / 1000 % 10)) = x.y / 1000 % 10 :=
    digVal_digChar _ (Nat.mod_lt _ (by omega))
  have v2 : digVal (digChar (x.y / 100 % 10)) = x.y / 100 % 10 :=
    digVal_digChar _ (Nat.mod_lt _ (by omega))
  have v3 : digVal (digChar (x.y / 10 % 10)) = x.y / 10 % 10 :=
    digVal_digChar _ (Nat.mod_lt _ (by omega))
  have v4 : digVal (digChar (x.y % 10)) = x.y % 10 := digVal_digChar _ (Nat.mod_lt _ (by omega))
  have v5 : digVal (digChar (x.m / 10 % 10)) = x.m / 10 % 10 :=
    digVal_digChar _ (Nat.mod_lt _ (by omega))
  have v6 : digVal (digChar (x.m % 10)) = x.m % 10 := digVal_digChar _ (Nat.mod_lt _ (by omega))
  have v7 : digVal (digChar (x.d / 10 % 10)) = x.d / 10 % 10 :=
    digVal_digChar _ (Nat.mod_lt _ (by omega))
  have v8 : digVal (digChar (x.d % 10)) = x.d % 10 := digVal_digChar _ (Nat.mod_lt _ (by omega))
  have wy : x.y / 1000 % 10 * 1000 + x.y / 100 % 10 * 100 + x.y / 10 % 10 * 10 + x.y % 10 = x.y :=
    by omega
  have wm : x.m / 10 % 10 * 10 + x.m % 10 = x.m := by omega
  have wd : x.d / 10 % 10 * 10 + x.d % 10 = x.d := by omega
  show specValidDate ⟨yearChars x.y ++ pad2 x.m ++ pad2 x.d⟩ = true
  rw [hyc]
  simp only [specValidDate, pad2, List.cons_append, List.nil_append]
  rw [e1, e2, e3, e4, e5, e6, e7, e8]
  simp only [Bool.true_and, eq_self_iff_true, if_true]
  simp only [v1, v2, v3, v4, v5, v6, v7, v8, wy, wm, wd]
  have hiv : isValidYMD ⟨x.y, x.m, x.d⟩ = true := by
    simp only [isValidYMD, decide_eq_true_eq]
    exact ⟨⟨hy, hm1, hm12, hd1, hd2⟩, h2⟩
  rw [hiv]
  simp only [Bool.true_and, Bool.not_eq_true']
  have hxeta : (⟨x.y, x.m, x.d⟩ : YMD) = x := rfl
  rw [hxeta]
  exact decide_eq_false (by omega)

theorem hash_date_char (d p : String) (hv : valid_date d = true) (hp : p ≠ "")
    {x : YMD} (hx : parseDate d = some x) :
    hash_date d p =
      if 9999 < (iterDays (md5IntBE (utf8 p) % 3652) x).y then none
      else some (md5IntBE (utf8 p) % 3652, formatYMD (iterDays (md5IntBE (utf8 p) % 3652) x)) := by
  unfold hash_date
  rw [hx, if_neg (by simp [hv, hp])]

/-- Claim C1 (corrected).  For every date string `d` and patient id `p`:
if `d` fails the code's `valid_date` test (`strptime("%Y%m%d")`, which,
beyond the claim's `YYYYMMDD` shape, also accepts some 6- and 7-digit
strings, plus the 1900-01-01 floor) or `p` is empty, `_hash_date`
returns `(0, "20000101")`.  Otherwise, with
`delta = MD5(p) mod 3652 < 3652`: when shifting `d` by `delta` days
passes 9999-12-31 an `OverflowError` escapes (`none`), and otherwise the
result is `(delta, anon)` with `anon` the shifted date formatted
`YYYYMMDD`, which is again a valid date on-or-after 1900-01-01 (both in
the code's sense and in the claim's eight-digit sense). -/
theorem claim_C1 (d p : String) :
    ((valid_date d = false ∨ p = "") → hash_date d p = some (0, "20000101")) ∧
    (valid_date d = true → p ≠ "" →
      (∀ delta anon, hash_date d p = some (delta, anon) →
          delta = md5IntBE (utf8 p) % 3652 ∧ delta < 3652 ∧
          (∃ x, parseDate d = some x ∧ anon = formatYMD (iterDays delta x)) ∧
          valid_date anon = true ∧ specValidDate anon = true) ∧
      (hash_date d p = none ↔
          ∃ x, parseDate d = some x ∧
            9999 < (iterDays (md5IntBE (utf8 p) % 3652) x).y)) := by
  constructor
  · intro h
    unfold hash_date
    rw [if_pos (by rcases h with h | h <;> simp [h])]
    rfl
  · intro hv hp
    obtain ⟨x, hx, hnc, hy9999, hord⟩ := valid_date_elim hv
    have hchar := hash_date_char d p hv hp hx
    have hnc' : validNC (iterDays (md5IntBE (utf8 p) % 3652) x) := iterDays_validNC _ _ hnc
    have hyge : x.y ≤ (iterDays (md5IntBE (utf8 p) % 3652) x).y := iterDays_y_ge _ _
    have h1900 : 1900 ≤ x.y := year_ge_1900 x hnc hord
    have hordInc : ordDate (iterDays (md5IntBE (utf8 p) % 3652) x) =
        ordDate x + md5IntBE (utf8 p) % 3652 := ord_iterDays _ _ hnc
    constructor
    · intro delta anon hsome
      rw [hchar] at hsome
      split at hsome
      · exact absurd hsome (by simp)
      · next hnover =>
          simp only [Option.some.injEq, Prod.mk.injEq] at hsome
          obtain ⟨hdelta, hanon⟩ := hsome
          subst hdelta
          subst hanon
          refine ⟨rfl, Nat.mod_lt _ (by omega), ⟨x, hx, rfl⟩, ?_, ?_⟩
          · unfold valid_date
            rw [show parseDate (formatYMD (iterDays (md5IntBE (utf8 p) % 3652) x)) =
                some (iterDays (md5IntBE (utf8 p) % 3652) x) from
              parse_format _ hnc' (by omega) (by omega)]
            show (if ordDate (iterDays (md5IntBE (utf8 p) % 3652) x) <
                ordDate ⟨1900, 1, 1⟩ then false else true) = true
            rw [if_neg (by omega)]
          · exact specValidDate_format _ hnc' (by omega) (by omega) (by omega)
    · rw [hchar]
      constructor
      · intro hnone
        split at hnone
        · next hover => exact ⟨x, hx, hover⟩
        · exact absurd hnone (by simp)
      · rintro ⟨x', hx', hover⟩
        rw [hx] at hx'
        injection hx' with hx'
        subst hx'
        rw [if_pos hover]

set_option maxRecDepth 20000 in
/-- Witness for claim C1: concrete instantiations of both branches,
matching the repository's own test vectors
(`_hash_date("20220101","12345") = (263, "20220921")`). -/
theorem claim_C1_witness :
    hash_date "18991231" "12345" = some (0, "20000101") ∧
    valid_date "20220921" = true ∧ 263 < 3652 := by
  refine ⟨(claim_C1 "18991231" "12345").1 (Or.inl (by decide)), ?_, ?_⟩
  · have h := ((claim_C1 "20220101" "12345").2 (by decide) (by decide)).1 263 "20220921"
      (by decide)
    exact h.2.2.2.1
  · have h := ((claim_C1 "20220101" "12345").2 (by decide) (by decide)).1 263 "20220921"
      (by decide)
    exact h.2.1

set_option maxRecDepth 20000 in
/-- Counterexample to claim C1 as stated: `"2022111"` is not a valid
`YYYYMMDD` date (it has seven characters), so the claim requires
`_hash_date("2022111", "12345") = (0, "20000101")`; but `strptime` parses
it as 2022-11-01 (`%m` eats `"11"`, `%d` eats `"1"`), and the code hashes
it to `(263, "20230722")`. -/
theorem claim_C1_counterexample :
    specValidDate "2022111" = false ∧ "12345" ≠ "" ∧
    hash_date "2022111" "12345" = some (263, "20230722") := by
  refine ⟨by decide, by decide, by decide⟩

theorem modify_date_eq_spec (d op : String) : modify_date d op = modifyDateSpec d op := by
  unfold modify_date modifyDateSpec
  cases hpd : parseDate d with
  | none =>
      have hv : valid_date d = false := by unfold valid_date; rw [hpd]
      rw [hv]
      simp
  | some o =>
      by_cases hord : ordDate o < ordDate ⟨1900, 1, 1⟩
      · have hv : valid_date d = false := by
          unfold valid_date; rw [hpd]
          show (if ordDate o < ordDate ⟨1900, 1, 1⟩ then false else true) = false
          rw [if_pos hord]
        rw [hv]
        simp [hord]
      · have hv : valid_date d = true := by
          unfold valid_date; rw [hpd]
          show (if ordDate o < ordDate ⟨1900, 1, 1⟩ then false else true) = true
          rw [if_neg hord]
        rw [hv]
        simp only [Bool.true_eq_false, if_false, if_neg hord]
        generalize hP : (if ((splitComma (if begMatch "@modifydate(".data
              (pyStripL op.data) &&
              (match (pyStripL op.data).reverse with | ')' :: _ => true | _ => false)
            then pyStripL (((pyStripL op.data).drop 12).dropLast)
            else pyStripL op.data)).map pyStripL).length = 3
          then "this".data :: ((splitComma (if begMatch "@modifydate(".data
              (pyStripL op.data) &&
              (match (pyStripL op.data).reverse with | ')' :: _ => true | _ => false)
            then pyStripL (((pyStripL op.data).drop 12).dropLast)
            else pyStripL op.data)).map pyStripL)
          else ((splitComma (if begMatch "@modifydate(".data (pyStripL op.data) &&
              (match (pyStripL op.data).reverse with | ')' :: _ => true | _ => false)
            then pyStripL (((pyStripL op.data).drop 12).dropLast)
            else pyStripL op.data)).map pyStripL)) = P
        match P with
        | [] => simp
        | [a] => simp
        | [a, b] => simp
        | [a, b, c] => simp
        | [a, b, c, e] =>
            simp only [List.length_cons, List.length_nil, List.getD, List.getD_cons_zero,
              List.getD_cons_succ]
            by_cases h1 : lowerL a = "this".data
            · simp [h1]
            · by_cases h2 : lowerL a = "*".data
              · simp [h1, h2]
              · simp [h1, h2]
        | a :: b :: c :: e :: f :: rest => simp

/-- Claim C2 (corrected).  `_modify_date` implements exactly the
splitting, padding, `*`-substitution, validation and day-difference
pipeline the claim describes — amended only in that the first part is
compared lower-cased (so `"THIS"` also passes) — and the three quoted
evaluations hold. -/
theorem claim_C2 :
    (∀ date op, modify_date date op = modifyDateSpec date op) ∧
    modify_date "20220415" "2022,1,1" = (-104, "20220101") ∧
    modify_date "20220115" "*,1,1" = (-14, "20220101") ∧
    modify_date "20220115" "foo,1,1" = (0, "20000101") :=
  ⟨modify_date_eq_spec, by decide, by decide, by decide⟩

/-- Counterexample to claim C2 as stated: the claim says an operation
whose first part is neither `this` nor `*` yields `(0, "20000101")`, but
the code lower-cases the part first, so `"THIS,2022,1,2"` is accepted
and modifies the date. -/
theorem claim_C2_counterexample :
    "THIS" ≠ "this" ∧ "THIS" ≠ "*" ∧
    modify_date "20220415" "THIS,2022,1,2" = (-103, "20220102") :=
  ⟨by decide, by decide, by decide⟩

theorem evenPad_even (l : List Char) : (evenPad l).length % 2 = 0 := by
  unfold evenPad
  split
  · next h => simp only [List.length_cons]; omega
  · next h => omega

theorem roundHalfEvenDiv_nearest (n w : Nat) (hw : 1 ≤ w) :
    2 * Nat.dist (roundHalfEvenDiv n w * w) n ≤ w := by
  have hdm : w * (n / w) + n % w = n := Nat.div_add_mod n w
  have hr : n % w < w := Nat.mod_lt _ (by omega)
  unfold roundHalfEvenDiv
  have e1 : n / w * w = w * (n / w) := Nat.mul_comm _ _
  have e2 : (n / w + 1) * w = w * (n / w) + w := by ring
  split_ifs <;> simp only [Nat.dist, e1, e2] <;> omega

/-- Claim C8 (corrected).  For an input whose whitespace-stripped form is
nonempty: if it contains no digit, `float("")` raises `ValueError` and
the *stripped* input (not the original) is returned; otherwise, for
width `w ≥ 1`, all digit characters are collected and parsed, the value
is rounded to a multiple of `w` at distance at most `w/2` (ties toward
the even quotient), *all* alphabetic characters of the stripped input
(not only a trailing suffix) are appended in order, and the result is
left-padded with `'0'` to even length. -/
theorem claim_C8 (s : String) (w : Nat) (hw : 1 ≤ w) :
    (pyStripL s.data ≠ [] → (pyStripL s.data).filter isDig = [] →
        round_age s w = some ⟨pyStripL s.data⟩) ∧
    (pyStripL s.data ≠ [] → (pyStripL s.data).filter isDig ≠ [] →
        round_age s w = some ⟨evenPad (natRepr (roundHalfEvenDiv
            (digitsVal ((pyStripL s.data).filter isDig)) w * w) ++
          (pyStripL s.data).filter isAlphaPy)⟩ ∧
        2 * Nat.dist (roundHalfEvenDiv (digitsVal ((pyStripL s.data).filter isDig)) w * w)
            (digitsVal ((pyStripL s.data).filter isDig)) ≤ w ∧
        (evenPad (natRepr (roundHalfEvenDiv
            (digitsVal ((pyStripL s.data).filter isDig)) w * w) ++
          (pyStripL s.data).filter isAlphaPy)).length % 2 = 0) := by
  constructor
  · intro hne hnd
    unfold round_age
    rw [if_neg (by simpa [List.length_eq_zero] using hne)]
    rw [hnd]
  · intro hne hnd
    refine ⟨?_, roundHalfEvenDiv_nearest _ _ hw, evenPad_even _⟩
    unfold round_age
    rw [if_neg (by simpa [List.length_eq_zero] using hne)]
    cases hds : (pyStripL s.data).filter isDig with
    | nil => exact absurd hds hnd
    | cons c cs =>
        dsimp only
        rw [if_neg (by omega)]

/-- Witness for claim C8: `_round_age("43Y", 5)` rounds 43 to the
multiple 45, re-attaches `Y` and pads to `"045Y"`. -/
theorem claim_C8_witness :
    round_age "43Y" 5 = some "045Y" ∧
    2 * Nat.dist (roundHalfEvenDiv (digitsVal ((pyStripL "43Y".data).filter isDig)) 5 * 5)
        (digitsVal ((pyStripL "43Y".data).filter isDig)) ≤ 5 := by
  have h := (claim_C8 "43Y" 5 (by decide)).2 (by decide) (by decide)
  exact ⟨by decide, h.2.1⟩

/-- Counterexample to claim C8 as stated: on parse failure the code
returns the whitespace-stripped input, not the input unchanged
(`" Y "` comes back as `"Y"`); and alphabetic characters are re-attached
even when they are not a trailing suffix (`"Y10"` becomes `"010Y"`,
whereas the claim prescribes `"10"`). -/
theorem claim_C8_counterexample :
    round_age " Y " 3 = some "Y" ∧ "Y" ≠ " Y " ∧
    round_age "Y10" 1 = some "010Y" :=
  ⟨by decide, by decide, by decide⟩

theorem firstIdxMem_isSome (keys : List (List Char)) (l : List (List Char)) :
    (firstIdxMem keys l).isSome = true ↔ ∃ c ∈ l, c ∈ keys := by
  induction l with
  | nil => simp [firstIdxMem]
  | cons c rest ih =>
      unfold firstIdxMem
      by_cases h : c ∈ keys
      · simp [h]
      · rw [if_neg h]
        have hmap : (Option.map (· + 1) (firstIdxMem keys rest)).isSome =
            (firstIdxMem keys rest).isSome := by
          cases firstIdxMem keys rest <;> rfl
        rw [hmap, ih]
        simp [h]

/-- Membership of an original id in the seen-set forces failure as soon
as a sufficiently long row carries it again. -/
theorem processRows_seenO_none (oi ai : Nat) (o : String) :
    ∀ (l : List (List String)) (seenO seenA : List String) (acc : List (String × String)),
      o ∈ seenO →
      (∃ r ∈ l, max oi ai < r.length ∧ pyStrip (r.getD oi "") = o) →
      processRows oi ai l seenO seenA acc = none := by
  intro l
  induction l with
  | nil => rintro _ _ _ _ ⟨r, hr, _⟩; exact absurd hr (by simp)
  | cons row rest ih =>
      rintro seenO seenA acc hseen ⟨r, hr, hrlen, hro⟩
      unfold processRows
      by_cases hlen : row.length ≤ max oi ai
      · rw [if_pos hlen]
        rcases List.mem_cons.mp hr with rfl | hr'
        · omega
        · exact ih _ _ _ hseen ⟨r, hr', hrlen, hro⟩
      · rw [if_neg hlen]
        by_cases h1 : pyStrip (row.getD oi "") ∈ seenO
        · rw [if_pos h1]
        · rw [if_neg h1]
          have hr' : r ∈ rest := by
            rcases List.mem_cons.mp hr with rfl | hr'
            · exact absurd (hro ▸ hseen) h1
            · exact hr'
          by_cases h2 : pyStrip (row.getD ai "") ∈ seenA
          · rw [if_pos h2]
          · rw [if_neg h2]
            by_cases h3 : pyStrip (row.getD oi "") ≠ "" ∧ pyStrip (row.getD ai "") ≠ ""
            · rw [if_pos h3]
              exact ih _ _ _ (List.mem_cons_of_mem _ hseen) ⟨r, hr', hrlen, hro⟩
            · rw [if_neg h3]
              exact ih _ _ _ hseen ⟨r, hr', hrlen, hro⟩

/-- Membership of an anonymized id in the seen-set forces failure as
soon as a sufficiently long row carries it again. -/
theorem processRows_seenA_none (oi ai : Nat) (a : String) :
    ∀ (l : List (List String)) (seenO seenA : List String) (acc : List (String × String)),
      a ∈ seenA →
      (∃ r ∈ l, max oi ai < r.length ∧ pyStrip (r.getD ai "") = a) →
      processRows oi ai l seenO seenA acc = none := by
  intro l
  induction l with
  | nil => rintro _ _ _ _ ⟨r, hr, _⟩; exact absurd hr (by simp)
  | cons row rest ih =>
      rintro seenO seenA acc hseen ⟨r, hr, hrlen, hra⟩
      unfold processRows
      by_cases hlen : row.length ≤ max oi ai
      · rw [if_pos hlen]
        rcases List.mem_cons.mp hr with rfl | hr'
        · omega
        · exact ih _ _ _ hseen ⟨r, hr', hrlen, hra⟩
      · rw [if_neg hlen]
        by_cases h1 : pyStrip (row.getD oi "") ∈ seenO
        · rw [if_pos h1]
        · rw [if_neg h1]
          by_cases h2 : pyStrip (row.getD ai "") ∈ seenA
          · rw [if_pos h2]
          · rw [if_neg h2]
            have hr' : r ∈ rest := by
              rcases List.mem_cons.mp hr with rfl | hr'
              · exact absurd (hra ▸ hseen) h2
              · exact hr'
            by_cases h3 : pyStrip (row.getD oi "") ≠ "" ∧ pyStrip (row.getD ai "") ≠ ""
            · rw [if_pos h3]
              exact ih _ _ _ (List.mem_cons_of_mem _ hseen) ⟨r, hr', hrlen, hra⟩
            · rw [if_neg h3]
              exact ih _ _ _ hseen ⟨r, hr', hrlen, hra⟩

/-- After an eligible row (long enough, both trimmed ids nonempty, both
fresh), any later sufficiently long row repeating its original or its
anonymized id makes the whole load fail. -/
theorem processRows_dup_none (oi ai : Nat) (r1 r2 : List String)
    (h1len : max oi ai < r1.length) (h2len : max oi ai < r2.length)
    (ho : pyStrip (r1.getD oi "") ≠ "") (ha : pyStrip (r1.getD ai "") ≠ "")
    (heq : pyStrip (r2.getD oi "") = pyStrip (r1.getD oi "") ∨
      pyStrip (r2.getD ai "") = pyStrip (r1.getD ai "")) :
    ∀ (pre mid post : List (List String)) (seenO seenA : List String)
      (acc : List (String × String)),
      processRows oi ai (pre ++ r1 :: (mid ++ r2 :: post)) seenO seenA acc = none := by
  intro pre
  induction pre with
  | nil =>
      intro mid post seenO seenA acc
      simp only [List.nil_append]
      unfold processRows
      rw [if_neg (by omega)]
      by_cases h1 : pyStrip (r1.getD oi "") ∈ seenO
      · rw [if_pos h1]
      · rw [if_neg h1]
        by_cases h2 : pyStrip (r1.getD ai "") ∈ seenA
        · rw [if_pos h2]
        · rw [if_neg h2]
          rw [if_pos ⟨ho, ha⟩]
          rcases heq with heq | heq
          · exact processRows_seenO_none oi ai _ _ _ _ _ (by simp)
              ⟨r2, by simp, h2len, heq⟩
          · exact processRows_seenA_none oi ai _ _ _ _ _ (by simp)
              ⟨r2, by simp, h2len, heq⟩
  | cons row pre' ih =>
      intro mid post seenO seenA acc
      simp only [List.cons_append]
      unfold processRows
      by_cases hlen : row.length ≤ max oi ai
      · rw [if_pos hlen]; exact ih _ _ _ _ _
      · rw [if_neg hlen]
        by_cases hh1 : pyStrip (row.getD oi "") ∈ seenO
        · rw [if_pos hh1]
        · rw [if_neg hh1]
          by_cases hh2 : pyStrip (row.getD ai "") ∈ seenA
          · rw [if_pos hh2]
          · rw [if_neg hh2]
            by_cases hh3 : pyStrip (row.getD oi "") ≠ "" ∧ pyStrip (row.getD ai "") ≠ ""
            · rw [if_pos hh3]; exact ih _ _ _ _ _
            · rw [if_neg hh3]; exact ih _ _ _ _ _

/-- Claim C9 (corrected).  Header detection succeeds exactly when some
column, lower-cased and trimmed, is one of the known original-id names
and some column one of the known anonymized-id names; and a repeated
original or anonymized id fails the load — provided the earlier
occurrence sits in a recorded row, i.e. one long enough whose two
trimmed ids are both nonempty (rows with an empty cell are skipped
without being remembered, which is what the counterexample exploits). -/
theorem claim_C9 :
    (∀ header : List String,
      (detect_header_indices header).isSome = true ↔
        ((∃ c ∈ header, pyStripL (lowerL c.data) ∈ knownOriginals) ∧
         (∃ c ∈ header, pyStripL (lowerL c.data) ∈ knownAnons))) ∧
    (∀ (header : List String) (oi ai : Nat) (pre mid post : List (List String))
        (r1 r2 : List String),
      detect_header_indices header = some (oi, ai) →
      max oi ai < r1.length → max oi ai < r2.length →
      pyStrip (r1.getD oi "") ≠ "" → pyStrip (r1.getD ai "") ≠ "" →
      (pyStrip (r2.getD oi "") = pyStrip (r1.getD oi "") ∨
        pyStrip (r2.getD ai "") = pyStrip (r1.getD ai "")) →
      readPseudoCsv (header :: (pre ++ r1 :: (mid ++ r2 :: post))) = none) := by
  constructor
  · intro header
    have key : (detect_header_indices header).isSome =
        ((firstIdxMem knownOriginals (header.map fun h => pyStripL (lowerL h.data))).isSome &&
         (firstIdxMem knownAnons (header.map fun h => pyStripL (lowerL h.data))).isSome) := by
      unfold detect_header_indices
      cases firstIdxMem knownOriginals (header.map fun h => pyStripL (lowerL h.data)) <;>
        cases firstIdxMem knownAnons (header.map fun h => pyStripL (lowerL h.data)) <;> rfl
    rw [key, Bool.and_eq_true, firstIdxMem_isSome, firstIdxMem_isSome]
    simp only [List.mem_map]
    constructor
    · rintro ⟨⟨c, ⟨c0, hc0, rfl⟩, hck⟩, ⟨d, ⟨d0, hd0, rfl⟩, hdk⟩⟩
      exact ⟨⟨c0, hc0, hck⟩, ⟨d0, hd0, hdk⟩⟩
    · rintro ⟨⟨c0, hc0, hck⟩, ⟨d0, hd0, hdk⟩⟩
      exact ⟨⟨_, ⟨c0, hc0, rfl⟩, hck⟩, ⟨_, ⟨d0, hd0, rfl⟩, hdk⟩⟩
  · intro header oi ai pre mid post r1 r2 hdet h1len h2len ho ha heq
    simp only [readPseudoCsv]
    rw [hdet]
    exact processRows_dup_none oi ai r1 r2 h1len h2len ho ha heq pre mid post [] [] []

/-- Witness for claim C9: a header recognized case-insensitively, and a
duplicate original id across two complete rows failing the load. -/
theorem claim_C9_witness :
    (detect_header_indices ["Original Patient ID", "Anonymous ID"]).isSome = true ∧
    readPseudoCsv [["original", "anon"], ["X", "A"], ["X", "B"]] = none := by
  constructor
  · exact (claim_C9.1 ["Original Patient ID", "Anonymous ID"]).mpr
      ⟨⟨"Original Patient ID", by simp, by decide⟩, ⟨"Anonymous ID", by simp, by decide⟩⟩
  · exact claim_C9.2 ["original", "anon"] 0 1 [] [] [] ["X", "A"] ["X", "B"]
      (by decide) (by decide) (by decide) (by decide) (by decide) (Or.inl (by decide))

/-- Counterexample to claim C9 as stated: the file below contains two
rows with the same original patient id `"X"`, yet the load succeeds,
because a row with an empty anonymized cell is skipped without being
recorded in the duplicate-detection sets. -/
theorem claim_C9_counterexample :
    readPseudoCsv [["original", "anon"], ["X", ""], ["X", "A1"]] = some [("X", "A1")] := by
  decide

/-- Claim C10 (confirmed).  `load_pseudo_keys` always returns a
`(mapping, messages)` pair — every exception class of the readers is
caught, reflected in the totality of the model — and on every failing
input the mapping is empty and at least one diagnostic message is
present. -/
theorem claim_C10 (inp : PseudoInput) (h : pseudoLoadFails inp) :
    (load_pseudo_keys inp).1 = [] ∧ (load_pseudo_keys inp).2 ≠ [] := by
  cases inp with
  | noPath => exact ⟨rfl, by simp [load_pseudo_keys]⟩
  | notFound => exact ⟨rfl, by simp [load_pseudo_keys]⟩
  | ioError suffix => exact ⟨rfl, by simp [load_pseudo_keys]⟩
  | okFile suffix rows =>
      unfold load_pseudo_keys
      dsimp only
      by_cases hs : lowerL suffix.data = ".csv".data ∨ lowerL suffix.data = ".xlsx".data
      · rw [if_pos hs]
        have hnone : readPseudoCsv rows = none := h hs
        rw [hnone]
        exact ⟨rfl, by simp⟩
      · rw [if_neg hs]
        exact ⟨rfl, by simp⟩

/-- Witness for claim C10: an unsupported suffix, a missing file, and a
duplicate-id csv all yield an empty mapping plus a message. -/
theorem claim_C10_witness :
    (load_pseudo_keys (.okFile ".txt" [])).1 = [] ∧
    (load_pseudo_keys (.okFile ".txt" [])).2 ≠ [] ∧
    (load_pseudo_keys (.okFile ".csv" [["original", "anon"], ["X", "A"], ["X", "B"]])).1 = [] ∧
    (load_pseudo_keys .notFound).2 ≠ [] := by
  refine ⟨(claim_C10 (.okFile ".txt" []) (by decide)).1,
    (claim_C10 (.okFile ".txt" []) (by decide)).2,
    (claim_C10 (.okFile ".csv" [["original", "anon"], ["X", "A"], ["X", "B"]]) (by decide)).1,
    (claim_C10 .notFound (by trivial)).2⟩

/-- Claim C3 (confirmed).  A visited element whose canonical tag is not
kept is deleted; an empty or `@keep` operation leaves the element
unchanged; and otherwise the element is rewritten according to the
first substring match in the claim's priority order, with each action
setting the corresponding derivation. -/
theorem claim_C3 (tagKeep : List (String × String)) (param : String → String → String)
    (st : AnonState) (ds : DS) (tagRaw value : String) :
    (lookupMap tagKeep (cleanTag tagRaw) = none →
      anonymize_element tagKeep param st ds tagRaw value =
        some (dsDelete ds (cleanTag tagRaw), st)) ∧
    (∀ op, lookupMap tagKeep (cleanTag tagRaw) = some op →
      ((op = "" ∨ op = "@keep") →
        anonymize_element tagKeep param st ds tagRaw value = some (ds, st)) ∧
      (op ≠ "" → op ≠ "@keep" →
        anonymize_element tagKeep param st ds tagRaw value =
          applyAction param st ds (cleanTag tagRaw) value op (dispatchOp op))) := by
  constructor
  · intro h
    unfold anonymize_element
    dsimp only
    rw [h]
  · intro op hop
    constructor
    · intro hk
      unfold anonymize_element
      dsimp only
      rw [hop]
      dsimp only
      rw [if_pos hk]
    · intro hne hnk
      unfold anonymize_element
      dsimp only
      rw [hop]
      dsimp only
      rw [if_neg (by tauto)]
      by_cases h1 : containsSub "@empty".data op.data = true
      · rw [if_pos h1]
        simp [dispatchOp, dispatchTable, List.find?, h1, applyAction]
      · rw [if_neg h1]
        by_cases h2 : containsSub "uid".data op.data = true
        · rw [if_pos h2]
          simp only [Bool.not_eq_true] at h1
          simp only [dispatchOp, dispatchTable, List.find?, h1, h2, Option.map_some']
          simp only [applyAction, get_or_mint_anon_uid]
          cases hga : get_anon_uid st value with
          | none => rfl
          | some u =>
              by_cases hu : u = ""
              · rw [hu]; simp
              · simp [hu]
        · rw [if_neg h2]
          by_cases h3 : containsSub "acc".data op.data = true
          · rw [if_pos h3]
            simp only [Bool.not_eq_true] at h1 h2
            simp only [dispatchOp, dispatchTable, List.find?, h1, h2, h3, Option.map_some']
            simp only [applyAction, get_or_mint_anon_acc]
            cases hga : get_anon_acc_no st value with
            | none => rfl
            | some a =>
                by_cases ha : a = ""
                · rw [ha]; simp
                · simp [ha]
          · rw [if_neg h3]
            by_cases h4 : containsSub "@hashdate".data op.data = true
            · rw [if_pos h4]
              simp only [Bool.not_eq_true] at h1 h2 h3
              simp [dispatchOp, dispatchTable, List.find?, h1, h2, h3, h4, applyAction]
            · rw [if_neg h4]
              by_cases h5 : containsSub "@modifydate".data op.data = true
              · rw [if_pos h5]
                simp only [Bool.not_eq_true] at h1 h2 h3 h4
                simp [dispatchOp, dispatchTable, List.find?, h1, h2, h3, h4, h5, applyAction]
              · rw [if_neg h5]
                by_cases h6 : containsSub "@hashtime".data op.data = true
                · rw [if_pos h6]
                  simp only [Bool.not_eq_true] at h1 h2 h3 h4 h5
                  simp [dispatchOp, dispatchTable, List.find?, h1, h2, h3, h4, h5, h6,
                    applyAction]
                · rw [if_neg h6]
                  by_cases h7 : containsSub "@round".data op.data = true
                  · rw [if_pos h7]
                    simp only [Bool.not_eq_true] at h1 h2 h3 h4 h5 h6
                    simp [dispatchOp, dispatchTable, List.find?, h1, h2, h3, h4, h5, h6, h7,
                      applyAction]
                  · rw [if_neg h7]
                    by_cases h8 : containsSub "@param".data op.data = true
                    · rw [if_pos h8]
                      simp only [Bool.not_eq_true] at h1 h2 h3 h4 h5 h6 h7
                      simp [dispatchOp, dispatchTable, List.find?, h1, h2, h3, h4, h5, h6, h7,
                        h8, applyAction]
                    · rw [if_neg h8]
                      simp only [Bool.not_eq_true] at h1 h2 h3 h4 h5 h6 h7 h8
                      simp [dispatchOp, dispatchTable, List.find?, h1, h2, h3, h4, h5, h6, h7,
                        h8, applyAction]

/-- Witness for claim C3: a deleted unknown tag, a kept tag, and a
`uid` dispatch minting `{uid_root}.{site}.{1}`. -/
theorem claim_C3_witness :
    anonymize_element [] (fun _ _ => "") ⟨[], [], 0, 0, "1.2", "S"⟩
        [("00100010", "Doe")] "(0010, 0010)" "Doe" = some ([], ⟨[], [], 0, 0, "1.2", "S"⟩) ∧
    anonymize_element [("00100010", "@keep")] (fun _ _ => "") ⟨[], [], 0, 0, "1.2", "S"⟩
        [("00100010", "Doe")] "(0010, 0010)" "Doe" =
      some ([("00100010", "Doe")], ⟨[], [], 0, 0, "1.2", "S"⟩) ∧
    anonymize_element [("0020000D", "@hashuid")] (fun _ _ => "") ⟨[], [], 0, 0, "1.2", "S"⟩
        [("0020000D", "9.9.9")] "(0020, 000D)" "9.9.9" =
      some ([("0020000D", "1.2.S.1")],
        ⟨[("9.9.9", "1.2.S.1")], [], 1, 0, "1.2", "S"⟩) := by
  refine ⟨?_, ?_, ?_⟩
  · exact ((claim_C3 [] (fun _ _ => "") ⟨[], [], 0, 0, "1.2", "S"⟩
      [("00100010", "Doe")] "(0010, 0010)" "Doe").1 (by decide)).trans (by decide)
  · exact (((claim_C3 [("00100010", "@keep")] (fun _ _ => "") ⟨[], [], 0, 0, "1.2", "S"⟩
      [("00100010", "Doe")] "(0010, 0010)" "Doe").2 "@keep" (by decide)).1
      (Or.inr rfl)).trans (by decide)
  · exact (((claim_C3 [("0020000D", "@hashuid")] (fun _ _ => "") ⟨[], [], 0, 0, "1.2", "S"⟩
      [("0020000D", "9.9.9")] "(0020, 000D)" "9.9.9").2 "@hashuid" (by decide)).2
      (by decide) (by decide)).trans (by decide)

theorem lookup_filter_ne (m : List (String × String)) (k : String) :
    lookupMap (m.filter (fun p => p.1 != k)) k = none := by
  induction m with
  | nil => rfl
  | cons p rest ih =>
      by_cases h : p.1 = k
      · simp only [List.filter_cons, h]
        simpa using ih
      · simp only [List.filter_cons]
        rw [if_pos (by simpa using h)]
        unfold lookupMap at *
        rw [List.find?_cons_of_neg _ (by simpa using h)]
        exact ih

theorem get_anon_uid_remove (st : AnonState) (k : String) :
    get_anon_uid (remove_uid st k) k = none := lookup_filter_ne st.uidMap k

/-- Claim C4 (confirmed).  Whenever any exception escapes the
post-capture work after a successful `capture_phi`, the mapping for the
remembered PHI `SOPInstanceUID` is removed — `get_anon_uid` of it
afterwards returns `none` — and the dataset is quarantined under
`STORAGE_ERROR`. -/
theorem claim_C4 (st0 : AnonState) (ds : DS) (st1 st2 : AnonState)
    (transform : AnonState → DS → AnonState × Option DS)
    (hfail : transform st1 ds = (st2, none)) :
    (anonymize_flow st0 ds (.ok st1) transform).2 = some .STORAGE_ERROR ∧
    get_anon_uid (anonymize_flow st0 ds (.ok st1) transform).1
      (dsGet ds "SOPInstanceUID" "") = none := by
  unfold anonymize_flow
  dsimp only
  rw [hfail]
  exact ⟨rfl, get_anon_uid_remove _ _⟩

/-- Witness for claim C4: a concrete model state holding the SOP UID
mapping, and a transform that raises; the mapping is gone afterwards and
the outcome is a `STORAGE_ERROR` quarantine. -/
theorem claim_C4_witness :
    (anonymize_flow ⟨[("1.2.3", "1.2.S.3")], [], 3, 0, "1.2", "S"⟩
        [("SOPInstanceUID", "1.2.3")] (.ok ⟨[("1.2.3", "1.2.S.3")], [], 3, 0, "1.2", "S"⟩)
        (fun st _ => (st, none))).2 = some .STORAGE_ERROR ∧
    get_anon_uid (anonymize_flow ⟨[("1.2.3", "1.2.S.3")], [], 3, 0, "1.2", "S"⟩
        [("SOPInstanceUID", "1.2.3")] (.ok ⟨[("1.2.3", "1.2.S.3")], [], 3, 0, "1.2", "S"⟩)
        (fun st _ => (st, none))).1 "1.2.3" = none := by
  have h := claim_C4 ⟨[("1.2.3", "1.2.S.3")], [], 3, 0, "1.2", "S"⟩
    [("SOPInstanceUID", "1.2.3")] ⟨[("1.2.3", "1.2.S.3")], [], 3, 0, "1.2", "S"⟩
    ⟨[("1.2.3", "1.2.S.3")], [], 3, 0, "1.2", "S"⟩ (fun st _ => (st, none)) rfl
  exact ⟨h.1, by simpa using h.2⟩

theorem lookupMap_mem {m : List (String × String)} {k v : String}
    (h : lookupMap m k = some v) : (k, v) ∈ m := by
  unfold lookupMap at h
  cases hf : m.find? (fun p => p.1 == k) with
  | none => rw [hf] at h; exact absurd h (by simp)
  | some p =>
      rw [hf] at h
      simp only [Option.map_some', Option.some.injEq] at h
      have hmem := List.mem_of_find?_eq_some hf
      have hpred := List.find?_some hf
      simp only [beq_iff_eq] at hpred
      have : p = (k, v) := by
        cases p
        simp only at hpred h
        simp [hpred, h]
      exact this ▸ hmem

/-- Claim C5 (confirmed).  Under the model invariant that minted anon
UIDs are never the empty string (they have the form
`{uid_root}.{site}.{n}`), `anonymize_file` classifies its input exactly
in the claim's priority order. -/
theorem claim_C5 (st : AnonState) (storageClasses : List String) (read : ReadOutcome)
    (hinv : ∀ p ∈ st.uidMap, p.2 ≠ "") :
    anonymize_file st storageClasses read = classifySpec st storageClasses read := by
  cases read with
  | fileNotFound => rfl
  | isADirectory => rfl
  | permissionError => rfl
  | invalidDicom => rfl
  | otherError => rfl
  | ok ds =>
      unfold anonymize_file classifySpec
      dsimp only
      have hmiss : (missing_attributes ds ≠ []) ↔
          (∃ a ∈ required_attributes, dsGet? ds a = none ∨ dsGet? ds a = some "") := by
        unfold missing_attributes
        rw [Ne, List.filter_eq_nil]
        push_neg
        constructor
        · rintro ⟨a, ha, hp⟩
          refine ⟨a, ha, ?_⟩
          cases hg : dsGet? ds a with
          | none => exact Or.inl rfl
          | some v =>
              rw [hg] at hp
              simp only [beq_iff_eq] at hp
              exact Or.inr (by rw [hp])
        · rintro ⟨a, ha, hor⟩
          refine ⟨a, ha, ?_⟩
          rcases hor with hg | hg <;> rw [hg] <;> simp
      have hstored : ((get_anon_uid st (dsGet ds "SOPInstanceUID" "")).getD "" ≠ "") ↔
          (get_anon_uid st (dsGet ds "SOPInstanceUID" "")).isSome = true := by
        cases hg : get_anon_uid st (dsGet ds "SOPInstanceUID" "") with
        | none => simp
        | some u =>
            have hu : u ≠ "" := hinv (dsGet ds "SOPInstanceUID" "", u) (lookupMap_mem hg)
            simp [hu]
      by_cases hc1 : missing_attributes ds ≠ []
      · rw [if_pos hc1, if_pos (hmiss.mp hc1)]
      · rw [if_neg hc1, if_neg (fun h => hc1 (hmiss.mpr h))]
        by_cases hc2 : (get_anon_uid st (dsGet ds "SOPInstanceUID" "")).getD "" ≠ ""
        · rw [if_pos hc2, if_pos (hstored.mp hc2)]
        · rw [if_neg hc2, if_neg (fun h => hc2 (hstored.mpr h))]

/-- Witness for claim C5: the classification agrees on a dataset with a
blank `StudyInstanceUID` (quarantined under `MISSING_ATTRIBUTES`) and on
a complete dataset of an unconfigured storage class. -/
theorem claim_C5_witness :
    anonymize_file ⟨[("1.2.3", "1.2.S.3")], [], 3, 0, "1.2", "S"⟩ ["1.2.840.10008.5.1.4.1.1.1"]
        (.ok [("SOPClassUID", "1.2.840.10008.5.1.4.1.1.2"), ("SOPInstanceUID", "9.9.9"),
          ("StudyInstanceUID", ""), ("SeriesInstanceUID", "7.7")]) =
      .quarantined .MISSING_ATTRIBUTES ∧
    anonymize_file ⟨[("1.2.3", "1.2.S.3")], [], 3, 0, "1.2", "S"⟩ ["1.2.840.10008.5.1.4.1.1.1"]
        (.ok [("SOPClassUID", "1.2.840.10008.5.1.4.1.1.2"), ("SOPInstanceUID", "9.9.9"),
          ("StudyInstanceUID", "6.6"), ("SeriesInstanceUID", "7.7")]) =
      .quarantined .INVALID_STORAGE_CLASS := by
  constructor
  · rw [claim_C5 ⟨[("1.2.3", "1.2.S.3")], [], 3, 0, "1.2", "S"⟩ ["1.2.840.10008.5.1.4.1.1.1"]
      (.ok [("SOPClassUID", "1.2.840.10008.5.1.4.1.1.2"), ("SOPInstanceUID", "9.9.9"),
        ("StudyInstanceUID", ""), ("SeriesInstanceUID", "7.7")]) (by decide)]
    decide
  · rw [claim_C5 ⟨[("1.2.3", "1.2.S.3")], [], 3, 0, "1.2", "S"⟩ ["1.2.840.10008.5.1.4.1.1.1"]
      (.ok [("SOPClassUID", "1.2.840.10008.5.1.4.1.1.2"), ("SOPInstanceUID", "9.9.9"),
        ("StudyInstanceUID", "6.6"), ("SeriesInstanceUID", "7.7")]) (by decide)]
    decide

/-! ## Time-order preservation (`_hash_time`, claim C6) -/

theorem digitsVal_aux_lt (l : List Char) : (∀ c ∈ l, digVal c ≤ 9) → ∀ a : Nat,
    List.foldl (fun b c => b * 10 + digVal c) a l < (a + 1) * 10 ^ l.length := by
  induction l with
  | nil => intro _ a; simpa using Nat.lt_succ_self a
  | cons c cs ih =>
      intro hd a
      have hc : digVal c ≤ 9 := hd c (List.mem_cons_self c cs)
      have hrec := ih (fun x hx => hd x (List.mem_cons_of_mem c hx)) (a * 10 + digVal c)
      simp only [List.foldl_cons, List.length_cons]
      calc List.foldl (fun b c => b * 10 + digVal c) (a * 10 + digVal c) cs
          < (a * 10 + digVal c + 1) * 10 ^ cs.length := hrec
        _ ≤ (a + 1) * 10 * 10 ^ cs.length := Nat.mul_le_mul_right _ (by omega)
        _ = (a + 1) * 10 ^ (cs.length + 1) := by ring

theorem digitsVal_lt (l : List Char) (hd : ∀ c ∈ l, digVal c ≤ 9) :
    digitsVal l < 10 ^ l.length := by
  have h := digitsVal_aux_lt l hd 0
  simpa [digitsVal] using h

theorem pad6_length (n : Nat) : 6 ≤ (pad6 n).length := by
  unfold pad6
  split <;> simp

theorem pad6_digVal (n : Nat) : ∀ c ∈ pad6 n, digVal c ≤ 9 := by
  intro c hc
  have key : ∀ k : Nat, digVal (digChar (k % 10)) ≤ 9 := by
    intro k
    rw [digVal_digChar _ (Nat.mod_lt _ (by omega))]
    omega
  unfold pad6 at hc
  split at hc <;> simp only [List.mem_cons, List.not_mem_nil, or_false] at hc
  · rcases hc with rfl | rfl | rfl | rfl | rfl | rfl <;> exact key _
  · rcases hc with rfl | rfl | rfl | rfl | rfl | rfl | rfl <;> exact key _

theorem pad6_isDig (n : Nat) : ∀ c ∈ pad6 n, isDig c = true := by
  intro c hc
  have key : ∀ k : Nat, isDig (digChar (k % 10)) = true := by
    intro k
    exact isDig_digChar _ (Nat.mod_lt _ (by omega))
  unfold pad6 at hc
  split at hc <;> simp only [List.mem_cons, List.not_mem_nil, or_false] at hc
  · rcases hc with rfl | rfl | rfl | rfl | rfl | rfl <;> exact key _
  · rcases hc with rfl | rfl | rfl | rfl | rfl | rfl | rfl <;> exact key _

theorem digChar_le2 (a : Nat) (h : a ≤ 2) :
    ('0' ≤ digChar a && digChar a ≤ '2') = true := by
  interval_cases a <;> decide

theorem digChar_le5 (a : Nat) (h : a ≤ 5) :
    ('0' ≤ digChar a && digChar a ≤ '5') = true := by
  interval_cases a <;> decide

theorem map_some_eq {A B : Type} (f : A → B) (a : A) : Option.map f (some a) = some (f a) := rfl

theorem hOrElse_some {A : Type} (a : A) (f : Unit → Option A) :
    HOrElse.hOrElse (some a) f = some a := rfl

theorem tmMatch_pads_frac (hh mm ss : Nat) (ds : List Char)
    (hhh : hh < 24) (hmm : mm < 60) (hss : ss < 60)
    (hne : ds ≠ []) (hlen : ds.length ≤ 6) (hdig : ds.all isDig = true) :
    tmMatch (pad2 hh ++ pad2 mm ++ pad2 ss ++ '.' :: ds) =
      some (hh, some mm, some ss, some ds) := by
  have g1 := digChar_le2 (hh / 10 % 10) (by omega)
  have g2 := isDig_digChar (hh % 10) (Nat.mod_lt _ (by omega))
  have g3 := digChar_le5 (mm / 10 % 10) (by omega)
  have g4 := isDig_digChar (mm % 10) (Nat.mod_lt _ (by omega))
  have g5 := digChar_le5 (ss / 10 % 10) (by omega)
  have g6 := isDig_digChar (ss % 10) (Nat.mod_lt _ (by omega))
  have v1 := digVal_digChar (hh / 10 % 10) (Nat.mod_lt _ (by omega))
  have v2 := digVal_digChar (hh % 10) (Nat.mod_lt _ (by omega))
  have v3 := digVal_digChar (mm / 10 % 10) (Nat.mod_lt _ (by omega))
  have v4 := digVal_digChar (mm % 10) (Nat.mod_lt _ (by omega))
  have v5 := digVal_digChar (ss / 10 % 10) (Nat.mod_lt _ (by omega))
  have v6 := digVal_digChar (ss % 10) (Nat.mod_lt _ (by omega))
  have n1 : 10 * (hh / 10 % 10) + hh % 10 = hh := by omega
  have n2 : 10 * (mm / 10 % 10) + mm % 10 = mm := by omega
  have n3 : 10 * (ss / 10 % 10) + ss % 10 = ss := by omega
  have e : pad2 hh ++ pad2 mm ++ pad2 ss ++ '.' :: ds =
      digChar (hh / 10 % 10) :: digChar (hh % 10) :: digChar (mm / 10 % 10) ::
      digChar (mm % 10) :: digChar (ss / 10 % 10) :: digChar (ss % 10) :: '.' :: ds := rfl
  rw [e]
  simp only [tmMatch, secFrac, fracEnd, g1, g2, g3, g4, g5, g6, v1, v2, v3, v4, v5, v6,
    n1, n2, n3, hne, hlen, hdig, Bool.true_and, Bool.and_true, Bool.and_self,
    eq_self_iff_true, if_true, ne_eq, not_false_iff, true_and, and_true,
    map_some_eq, hOrElse_some]

theorem tmMatch_pads0 (hh mm ss : Nat)
    (hhh : hh < 24) (hmm : mm < 60) (hss : ss < 60) :
    tmMatch (pad2 hh ++ pad2 mm ++ pad2 ss) = some (hh, some mm, some ss, none) := by
  have g1 := digChar_le2 (hh / 10 % 10) (by omega)
  have g2 := isDig_digChar (hh % 10) (Nat.mod_lt _ (by omega))
  have g3 := digChar_le5 (mm / 10 % 10) (by omega)
  have g4 := isDig_digChar (mm % 10) (Nat.mod_lt _ (by omega))
  have g5 := digChar_le5 (ss / 10 % 10) (by omega)
  have g6 := isDig_digChar (ss % 10) (Nat.mod_lt _ (by omega))
  have v1 := digVal_digChar (hh / 10 % 10) (Nat.mod_lt _ (by omega))
  have v2 := digVal_digChar (hh % 10) (Nat.mod_lt _ (by omega))
  have v3 := digVal_digChar (mm / 10 % 10) (Nat.mod_lt _ (by omega))
  have v4 := digVal_digChar (mm % 10) (Nat.mod_lt _ (by omega))
  have v5 := digVal_digChar (ss / 10 % 10) (Nat.mod_lt _ (by omega))
  have v6 := digVal_digChar (ss % 10) (Nat.mod_lt _ (by omega))
  have n1 : 10 * (hh / 10 % 10) + hh % 10 = hh := by omega
  have n2 : 10 * (mm / 10 % 10) + mm % 10 = mm := by omega
  have n3 : 10 * (ss / 10 % 10) + ss % 10 = ss := by omega
  have e : pad2 hh ++ pad2 mm ++ pad2 ss =
      digChar (hh / 10 % 10) :: digChar (hh % 10) :: digChar (mm / 10 % 10) ::
      digChar (mm % 10) :: digChar (ss / 10 % 10) :: digChar (ss % 10) :: [] := rfl
  rw [e]
  simp only [tmMatch, secFrac, fracEnd, g1, g2, g3, g4, g5, g6, v1, v2, v3, v4, v5, v6,
    n1, n2, n3, Bool.true_and, Bool.and_true, Bool.and_self,
    eq_self_iff_true, if_true, map_some_eq, hOrElse_some]

theorem tmValMicros_mk (l : List Char) : tmValMicros ⟨l⟩ = tmValMicrosL l := rfl

theorem tmValMicrosL_frac (hh mm ss : Nat) (ds : List Char)
    (hhh : hh < 24) (hmm : mm < 60) (hss : ss < 60)
    (hne : ds ≠ []) (hlen : ds.length ≤ 6) (hdig : ds.all isDig = true) :
    tmValMicrosL (pad2 hh ++ pad2 mm ++ pad2 ss ++ '.' :: ds) =
      some (hh * 3600000000 + mm * 60000000 + ss * 1000000 +
        digitsVal ds * 10 ^ (6 - ds.length)) := by
  unfold tmValMicrosL
  rw [tmMatch_pads_frac hh mm ss ds hhh hmm hss hne hlen hdig]

theorem tmValMicrosL_nofrac (hh mm ss : Nat)
    (hhh : hh < 24) (hmm : mm < 60) (hss : ss < 60) :
    tmValMicrosL (pad2 hh ++ pad2 mm ++ pad2 ss) =
      some (hh * 3600000000 + mm * 60000000 + ss * 1000000) := by
  unfold tmValMicrosL
  rw [tmMatch_pads0 hh mm ss hhh hmm hss]
  dsimp only
  simp only [Nat.add_zero]

theorem timeRecon_val (S prec : Nat) (hS : S < 172800000000) (hprec : prec ≤ 6) :
    ∃ v, tmValMicros (timeRecon S prec) = some v ∧
      S / 2000000 * 1000000 ≤ v ∧ v < S / 2000000 * 1000000 + 1000000 := by
  have hhh : S / 7200000000 < 24 := by omega
  have hmm : S % 7200000000 / 120000000 < 60 := by omega
  have hss : S % 120000000 / 2000000 < 60 := by omega
  have hsec : S / 7200000000 * 3600000000 + S % 7200000000 / 120000000 * 60000000 +
      S % 120000000 / 2000000 * 1000000 = S / 2000000 * 1000000 := by omega
  by_cases hpc : 0 < prec
  · have hfrlen : ((pad6 (anonFracOf S)).take prec).length = prec := by
      rw [List.length_take]
      have h6 := pad6_length (anonFracOf S)
      omega
    have hfrne : (pad6 (anonFracOf S)).take prec ≠ [] := by
      intro h0
      rw [h0] at hfrlen
      simp only [List.length_nil] at hfrlen
      omega
    have hfrdig : ((pad6 (anonFracOf S)).take prec).all isDig = true := by
      rw [List.all_eq_true]
      intro c hc
      exact pad6_isDig _ c (List.take_subset _ _ hc)
    have hdl : digitsVal ((pad6 (anonFracOf S)).take prec) < 10 ^ prec := by
      have h := digitsVal_lt ((pad6 (anonFracOf S)).take prec)
        (fun c hc => pad6_digVal _ c (List.take_subset _ _ hc))
      rwa [hfrlen] at h
    have hfv : digitsVal ((pad6 (anonFracOf S)).take prec) * 10 ^ (6 - prec) < 1000000 := by
      calc digitsVal ((pad6 (anonFracOf S)).take prec) * 10 ^ (6 - prec)
          < 10 ^ prec * 10 ^ (6 - prec) :=
            mul_lt_mul_of_pos_right hdl (pow_pos (by norm_num) _)
        _ = 1000000 := by
            rw [← pow_add]
            have he : prec + (6 - prec) = 6 := by omega
            rw [he]
            norm_num
    set F := digitsVal ((pad6 (anonFracOf S)).take prec) * 10 ^ (6 - prec) with hFdef
    rw [timeRecon, if_pos hpc]
    refine ⟨S / 7200000000 * 3600000000 + S % 7200000000 / 120000000 * 60000000 +
      S % 120000000 / 2000000 * 1000000 + F, ?_, by omega, by omega⟩
    rw [tmValMicros_mk,
      tmValMicrosL_frac _ _ _ _ hhh hmm hss hfrne (by rw [hfrlen]; exact hprec) hfrdig,
      hfrlen, ← hFdef]
  · rw [timeRecon, if_neg hpc]
    refine ⟨S / 7200000000 * 3600000000 + S % 7200000000 / 120000000 * 60000000 +
      S % 120000000 / 2000000 * 1000000, ?_, by omega, by omega⟩
    rw [tmValMicros_mk, tmValMicrosL_nofrac _ _ _ hhh hmm hss]

theorem hash_time_some (t p : String) (U prec : Nat)
    (hv : valid_time t = true) (hp : p ≠ "")
    (hP : hashTimeParse t.data = some (U, prec)) :
    hash_time t p = some (md5First8BE (utf8 p) % 86400000000,
      timeRecon (U + md5First8BE (utf8 p) % 86400000000) prec) := by
  unfold hash_time
  rw [if_neg (by simp [hv, hp]), hP]

/-- Claim C6 (corrected).  For a fixed non-empty patient id and two
`valid_time`-accepted strings of equal fractional precision whose parsed
values satisfy `U1 + 2000000 ≤ U2` (first time at least two whole
seconds earlier) and `U2 < 86400000000`: `_hash_time` applies to both the
same per-patient offset `off < 86400000000` microseconds, the summed
values stay below `172800000000`, and the anonymized outputs denote
microsecond values `v1 < v2 < 86400000000`, so strict order is
preserved.  (The claim's alternative trigger — a gap of at least two
units at the input fractional precision — does not suffice; see the
counterexample.) -/
theorem claim_C6 (p t1 t2 : String) (U1 U2 prec : Nat)
    (hp : p ≠ "")
    (hvt1 : valid_time t1 = true) (hvt2 : valid_time t2 = true)
    (hP1 : hashTimeParse t1.data = some (U1, prec))
    (hP2 : hashTimeParse t2.data = some (U2, prec))
    (hprec : prec ≤ 6)
    (hU2 : U2 < 86400000000)
    (horder : U1 + 2000000 ≤ U2) :
    ∃ off out1 out2,
      hash_time t1 p = some (off, out1) ∧ hash_time t2 p = some (off, out2) ∧
      off < 86400000000 ∧ U1 + off < 172800000000 ∧ U2 + off < 172800000000 ∧
      ∃ v1 v2, tmValMicros out1 = some v1 ∧ tmValMicros out2 = some v2 ∧
        v1 < v2 ∧ v2 < 86400000000 := by
  have hoff : md5First8BE (utf8 p) % 86400000000 < 86400000000 :=
    Nat.mod_lt _ (by norm_num)
  set off := md5First8BE (utf8 p) % 86400000000 with hoffdef
  have hS1 : U1 + off < 172800000000 := by omega
  have hS2 : U2 + off < 172800000000 := by omega
  obtain ⟨w1, hw1, hwl1, hwu1⟩ := timeRecon_val (U1 + off) prec hS1 hprec
  obtain ⟨w2, hw2, hwl2, hwu2⟩ := timeRecon_val (U2 + off) prec hS2 hprec
  refine ⟨off, timeRecon (U1 + off) prec, timeRecon (U2 + off) prec,
    hash_time_some t1 p U1 prec hvt1 hp hP1, hash_time_some t2 p U2 prec hvt2 hp hP2,
    hoff, hS1, hS2, w1, w2, hw1, hw2, ?_, ?_⟩
  · omega
  · omega

/-- Witness for claim C6: patient id `"1"`, times `01:02:03` and
`01:02:05` (two seconds apart, no fraction). -/
theorem claim_C6_witness :
    ("1" : String) ≠ "" ∧ valid_time "010203" = true ∧ valid_time "010205" = true ∧
    hashTimeParse "010203".data = some (3723000000, 0) ∧
    hashTimeParse "010205".data = some (3725000000, 0) ∧
    (∃ off out1 out2,
      hash_time "010203" "1" = some (off, out1) ∧ hash_time "010205" "1" = some (off, out2) ∧
      off < 86400000000 ∧ 3723000000 + off < 172800000000 ∧ 3725000000 + off < 172800000000 ∧
      ∃ v1 v2, tmValMicros out1 = some v1 ∧ tmValMicros out2 = some v2 ∧
        v1 < v2 ∧ v2 < 86400000000) :=
  ⟨by decide, by decide, by decide, by decide, by decide,
    claim_C6 "1" "010203" "010205" 3723000000 3725000000 0 (by decide) (by decide)
      (by decide) (by decide) (by decide) (by decide) (by decide) (by decide)⟩

set_option maxRecDepth 20000 in
/-- Counterexample to claim C6 as stated: for patient id `"0"` the valid
times `000004.070416` and `000005.670416` have equal precision 6 and the
first precedes the second by `1600000 ≥ 2` units at that precision, yet
the anonymized outputs are `002911.200000` and `002911.100000` — the
later input maps to the strictly earlier output, because rounding
half-to-even at `.9999995` wraps the fractional field. -/
theorem claim_C6_counterexample :
    valid_time "000004.070416" = true ∧ valid_time "000005.670416" = true ∧
    hashTimeParse "000004.070416".data = some (4070416, 6) ∧
    hashTimeParse "000005.670416".data = some (5670416, 6) ∧
    4070416 + 2 ≤ 5670416 ∧
    hash_time "000004.070416" "0" = some (3498329583, "002911.200000") ∧
    hash_time "000005.670416" "0" = some (3498329583, "002911.100000") ∧
    tmValMicros "002911.200000" = some 1751200000 ∧
    tmValMicros "002911.100000" = some 1751100000 ∧
    1751100000 < 1751200000 := by
  decide

/-! ## Time-grammar equivalence (`valid_time`, claim C7) -/

theorem char_le_iff (a b : Char) : a ≤ b ↔ a.toNat ≤ b.toNat := Iff.rfl

theorem isDig_elim (c : Char) (h : isDig c = true) : ∃ k, k < 10 ∧ c = digChar k := by
  unfold isDig at h
  simp only [Bool.and_eq_true, decide_eq_true_eq] at h
  obtain ⟨h1, h2⟩ := h
  rw [char_le_iff] at h1 h2
  have e0 : ('0' : Char).toNat = 48 := rfl
  have e9 : ('9' : Char).toNat = 57 := rfl
  rw [e0] at h1
  rw [e9] at h2
  refine ⟨c.toNat - 48, by omega, ?_⟩
  unfold digChar
  have he : 48 + (c.toNat - 48) = c.toNat := by omega
  rw [he]
  rcases c with ⟨v, hv⟩
  simp only [Char.toNat] at *
  unfold Char.ofNat
  split
  · apply Char.eq_of_val_eq
    show v = _
    unfold Char.ofNatAux
    apply UInt32.eq_of_toBitVec_eq
    have hlt : v.toNat < 4294967296 := v.toNat_lt
    simp [UInt32.toBitVec, UInt32.ofNat, BitVec.ofNat, Fin.ofNat, UInt32.toNat] at *
    apply BitVec.eq_of_toNat_eq
    simp
  · exact absurd hv (by assumption)

theorem guardA (c : Char) : ('0' ≤ c && c ≤ '2') = (isDig c && decide (digVal c ≤ 2)) := by
  rw [Bool.eq_iff_iff]
  simp only [Bool.and_eq_true, decide_eq_true_eq, isDig]
  have e0 : ('0' : Char).toNat = 48 := rfl
  have e2 : ('2' : Char).toNat = 50 := rfl
  have e9 : ('9' : Char).toNat = 57 := rfl
  constructor
  · rintro ⟨h1, h2⟩
    rw [char_le_iff, e0] at h1
    rw [char_le_iff, e2] at h2
    refine ⟨⟨?_, ?_⟩, ?_⟩
    · rw [char_le_iff, e0]; omega
    · rw [char_le_iff, e9]; omega
    · unfold digVal; omega
  · rintro ⟨⟨h1, h9⟩, h2⟩
    rw [char_le_iff, e0] at h1
    rw [char_le_iff, e9] at h9
    unfold digVal at h2
    constructor
    · rw [char_le_iff, e0]; omega
    · rw [char_le_iff, e2]; omega

theorem guardB (c : Char) : ('0' ≤ c && c ≤ '5') = (isDig c && decide (digVal c ≤ 5)) := by
  rw [Bool.eq_iff_iff]
  simp only [Bool.and_eq_true, decide_eq_true_eq, isDig]
  have e0 : ('0' : Char).toNat = 48 := rfl
  have e5 : ('5' : Char).toNat = 53 := rfl
  have e9 : ('9' : Char).toNat = 57 := rfl
  constructor
  · rintro ⟨h1, h2⟩
    rw [char_le_iff, e0] at h1
    rw [char_le_iff, e5] at h2
    refine ⟨⟨?_, ?_⟩, ?_⟩
    · rw [char_le_iff, e0]; omega
    · rw [char_le_iff, e9]; omega
    · unfold digVal; omega
  · rintro ⟨⟨h1, h9⟩, h2⟩
    rw [char_le_iff, e0] at h1
    rw [char_le_iff, e9] at h9
    unfold digVal at h2
    constructor
    · rw [char_le_iff, e0]; omega
    · rw [char_le_iff, e5]; omega

theorem isDig_ne_dot (c : Char) (h : isDig c = true) : c ≠ '.' := by
  obtain ⟨k, hk, rfl⟩ := isDig_elim c h
  interval_cases k <;> decide

theorem isDig_eq_six (c : Char) (h : isDig c = true) : (c = '6') ↔ digVal c = 6 := by
  obtain ⟨k, hk, rfl⟩ := isDig_elim c h
  interval_cases k <;> decide

theorem isDig_eq_zero (c : Char) (h : isDig c = true) : (c = '0') ↔ digVal c = 0 := by
  obtain ⟨k, hk, rfl⟩ := isDig_elim c h
  interval_cases k <;> decide

theorem digVal_lt10 (c : Char) (h : isDig c = true) : digVal c < 10 := by
  obtain ⟨k, hk, rfl⟩ := isDig_elim c h
  rw [digVal_digChar k hk]
  omega

theorem fracEnd_one (c : Char) : fracEnd [c] = none := by
  unfold fracEnd
  by_cases h : c = '.' <;> simp [h]

theorem secFrac_one (c : Char) : secFrac [c] = none := by
  unfold secFrac fracEnd
  by_cases h : c = '.' <;> simp [h]

theorem secFrac_digits (e f : Char) (rest : List Char) (hde : isDig e = true)
    (hdf : isDig f = true) (h5e : digVal e ≤ 5) :
    secFrac (e :: f :: rest) =
      (fracEnd rest).map (fun fr => (some (10 * digVal e + digVal f), fr)) := by
  unfold secFrac
  have hg : (('0' ≤ e && e ≤ '5') && isDig f) = true := by
    rw [guardB]
    simp [hde, hdf, h5e]
  have hne : e ≠ '.' := isDig_ne_dot e hde
  have h6 : ¬(e = '6' ∧ f = '0') := by
    rintro ⟨he, -⟩
    rw [isDig_eq_six e hde] at he
    omega
  cases hfe : fracEnd rest with
  | none =>
      simp [hg, hfe, h6, hne, fracEnd]
      unfold fracEnd at hfe
      simpa using hfe
  | some fr => simp [hg, hfe]

theorem secFrac_60 (rest : List Char) :
    secFrac ('6' :: '0' :: rest) = (fracEnd rest).map (fun fr => (some 60, fr)) := by
  unfold secFrac
  have hg : (('0' ≤ '6' && '6' ≤ '5') && isDig '0') = false := by decide
  cases hfe : fracEnd rest with
  | none =>
      simp [hg, hfe, fracEnd]
      unfold fracEnd at hfe
      simpa using hfe
  | some fr => simp [hg, hfe]

theorem secFrac_dot (f : Char) (rest : List Char) :
    secFrac ('.' :: f :: rest) =
      if f :: rest ≠ [] ∧ (f :: rest).length ≤ 6 ∧ (f :: rest).all isDig
      then some (none, some (f :: rest)) else none := by
  unfold secFrac
  have hg : (('0' ≤ '.' && '.' ≤ '5') && isDig f) = false := by
    have h0 : ('0' ≤ '.' && '.' ≤ '5') = false := by decide
    rw [h0]
    simp
  have h60 : ¬(('.' : Char) = '6' ∧ f = '0') := by
    rintro ⟨h, -⟩
    exact absurd h (by decide)
  simp [hg, h60, fracEnd]

theorem secFrac_fail (e f : Char) (rest : List Char)
    (hfail : ¬(isDig e = true ∧ isDig f = true ∧ digVal e ≤ 5))
    (h60 : ¬(e = '6' ∧ f = '0')) (hdot : e ≠ '.') :
    secFrac (e :: f :: rest) = none := by
  unfold secFrac
  have hg : (('0' ≤ e && e ≤ '5') && isDig f) = false := by
    rw [guardB]
    cases h1 : isDig e
    · simp
    · cases h2 : isDig f
      · simp
      · simp only [Bool.and_true, Bool.true_and]
        have hn : ¬ digVal e ≤ 5 := fun hle => hfail ⟨h1, h2, hle⟩
        exact decide_eq_false hn
  simp [hg, h60, hdot, fracEnd]

theorem fracOK_iff (rest : List Char) : fracOK rest = (fracEnd rest).isSome := by
  rcases rest with _ | ⟨r1, rs⟩
  · rfl
  · unfold fracOK fracEnd
    by_cases h1 : r1 = '.'
    · subst h1
      simp only [eq_self_iff_true, if_true, decide_True, Bool.true_and]
      split
      · rename_i hcond
        obtain ⟨hne, hlen, hdig⟩ := hcond
        simp [List.isEmpty_iff, hne, hlen, hdig]
      · rename_i hcond
        push_neg at hcond
        by_cases hne : rs = []
        · simp [hne]
        · by_cases hlen : rs.length ≤ 6
          · have hd : rs.all isDig = false := by
              cases h : rs.all isDig
              · rfl
              · exact absurd h (by simpa using hcond hne hlen)
            simp [List.isEmpty_iff, hne, hlen, hd]
          · simp [List.isEmpty_iff, hne, hlen]
    · simp [h1]

theorem guardA_true (a b : Char) (h1 : isDig a = true) (h2 : isDig b = true)
    (h3 : digVal a ≤ 2) : (('0' ≤ a && a ≤ '2') && isDig b) = true := by
  rw [guardA]
  simp [h1, h2, h3]

theorem guardA_false (a b : Char) (h : ¬(isDig a = true ∧ isDig b = true ∧ digVal a ≤ 2)) :
    (('0' ≤ a && a ≤ '2') && isDig b) = false := by
  rw [guardA]
  cases h1 : isDig a
  · simp
  · cases h2 : isDig b
    · simp
    · simp only [Bool.and_true, Bool.true_and]
      have hn : ¬ digVal a ≤ 2 := fun hle => h ⟨h1, h2, hle⟩
      exact decide_eq_false hn

theorem guardB_true (c d : Char) (h1 : isDig c = true) (h2 : isDig d = true)
    (h3 : digVal c ≤ 5) : (('0' ≤ c && c ≤ '5') && isDig d) = true := by
  rw [guardB]
  simp [h1, h2, h3]

theorem guardB_false (c d : Char) (h : ¬(isDig c = true ∧ isDig d = true ∧ digVal c ≤ 5)) :
    (('0' ≤ c && c ≤ '5') && isDig d) = false := by
  rw [guardB]
  cases h1 : isDig c
  · simp
  · cases h2 : isDig d
    · simp
    · simp only [Bool.and_true, Bool.true_and]
      have hn : ¬ digVal c ≤ 5 := fun hle => h ⟨h1, h2, hle⟩
      exact decide_eq_false hn

theorem hhOK_false (a b : Char) (h : ¬(isDig a = true ∧ isDig b = true ∧ digVal a ≤ 2)) :
    hhOK a b = false := by
  unfold hhOK
  cases h1 : isDig a
  · simp
  · cases h2 : isDig b
    · simp
    · simp only [Bool.and_true, Bool.true_and]
      have hn : ¬ digVal a ≤ 2 := fun hle => h ⟨h1, h2, hle⟩
      have : ¬(10 * digVal a + digVal b ≤ 23) := by
        have := digVal_lt10 b h2
        omega
      simp [this]

theorem mmOK_false (c d : Char) (h : ¬(isDig c = true ∧ isDig d = true ∧ digVal c ≤ 5)) :
    mmOK c d = false := by
  unfold mmOK
  cases h1 : isDig c
  · simp
  · cases h2 : isDig d
    · simp
    · simp only [Bool.and_true, Bool.true_and]
      have hn : ¬ digVal c ≤ 5 := fun hle => h ⟨h1, h2, hle⟩
      have : ¬(10 * digVal c + digVal d ≤ 59) := by
        have := digVal_lt10 d h2
        omega
      simp [this]

theorem ssOK_false (e f : Char) (h : ¬(isDig e = true ∧ isDig f = true ∧ digVal e ≤ 5))
    (h60 : ¬(e = '6' ∧ f = '0')) : ssOK e f = false := by
  unfold ssOK
  cases h1 : isDig e
  · simp
  · cases h2 : isDig f
    · simp
    · simp only [Bool.and_true, Bool.true_and]
      have hn : ¬ digVal e ≤ 5 := fun hle => h ⟨h1, h2, hle⟩
      have hne6 : ¬(digVal e = 6 ∧ digVal f = 0) := by
        rintro ⟨he, hf⟩
        exact h60 ⟨(isDig_eq_six e h1).mpr he, (isDig_eq_zero f h2).mpr hf⟩
      have : ¬(10 * digVal e + digVal f ≤ 60) := by
        have := digVal_lt10 f h2
        omega
      simp [this]

theorem tmCheck_eq_specTM (l : List Char) : tmCheck l = specTM l := by
  rcases l with _ | ⟨a, _ | ⟨b, _ | ⟨c, _ | ⟨d, _ | ⟨e, _ | ⟨f, rest⟩⟩⟩⟩⟩⟩
  · rfl
  · rfl
  · -- [a, b]
    by_cases hda : isDig a = true
    · by_cases hdb : isDig b = true
      · by_cases h2a : digVal a ≤ 2
        · have hg := guardA_true a b hda hdb h2a
          have hp : '0' ≤ a ∧ a ≤ '2' := by
            have hx := hg
            simp only [Bool.and_eq_true, decide_eq_true_eq] at hx
            exact ⟨hx.1.1, hx.1.2⟩
          by_cases h23 : 10 * digVal a + digVal b ≤ 23
          · simp [tmCheck, tmMatch, hg, hp, secFrac, fracEnd, specTM, hhOK, hda, hdb, h23,
              Nat.not_lt.mpr h23]
          · simp [tmCheck, tmMatch, hg, hp, secFrac, fracEnd, specTM, hhOK, hda, hdb, h23,
              Nat.lt_of_not_le h23]
        · have hg := guardA_false a b (fun hx => h2a hx.2.2)
          have hok := hhOK_false a b (fun hx => h2a hx.2.2)
          simp [tmCheck, tmMatch, hg, specTM, hok]
      · have hg := guardA_false a b (fun hx => hdb hx.2.1)
        have hok := hhOK_false a b (fun hx => hdb hx.2.1)
        simp [tmCheck, tmMatch, hg, specTM, hok]
    · have hg := guardA_false a b (fun hx => hda hx.1)
      have hok := hhOK_false a b (fun hx => hda hx.1)
      simp [tmCheck, tmMatch, hg, specTM, hok]
  · -- [a, b, c]
    cases hg : (('0' ≤ a && a ≤ '2') && isDig b) with
    | false => simp [tmCheck, tmMatch, hg, specTM]
    | true => simp [tmCheck, tmMatch, hg, secFrac_one, specTM]
  · -- [a, b, c, d]
    by_cases hga : isDig a = true ∧ isDig b = true ∧ digVal a ≤ 2
    · obtain ⟨hda, hdb, h2a⟩ := hga
      have hg := guardA_true a b hda hdb h2a
      by_cases hgm : isDig c = true ∧ isDig d = true ∧ digVal c ≤ 5
      · obtain ⟨hdc, hdd, h5c⟩ := hgm
        have hgB := guardB_true c d hdc hdd h5c
        have hp : '0' ≤ a ∧ a ≤ '2' := by
          have hx := hg
          simp only [Bool.and_eq_true, decide_eq_true_eq] at hx
          exact ⟨hx.1.1, hx.1.2⟩
        have hpc : '0' ≤ c ∧ c ≤ '5' := by
          have hx := hgB
          simp only [Bool.and_eq_true, decide_eq_true_eq] at hx
          exact ⟨hx.1.1, hx.1.2⟩
        have hm59 : 10 * digVal c + digVal d ≤ 59 := by
          have := digVal_lt10 d hdd
          omega
        by_cases h23 : 10 * digVal a + digVal b ≤ 23
        · simp [tmCheck, tmMatch, hg, hgB, hp, hpc, secFrac, fracEnd, specTM, hhOK, mmOK,
            hda, hdb, hdc, hdd, h23, hm59, Nat.not_lt.mpr h23]
        · simp [tmCheck, tmMatch, hg, hgB, hp, hpc, secFrac, fracEnd, specTM, hhOK, mmOK,
            hda, hdb, hdc, hdd, h23, hm59, Nat.lt_of_not_le h23]
      · have hgB := guardB_false c d hgm
        have hmok := mmOK_false c d hgm
        by_cases h60 : c = '6' ∧ d = '0'
        · obtain ⟨rfl, rfl⟩ := h60
          simp [tmCheck, tmMatch, hg, hgB, secFrac_60, fracEnd, specTM, hmok]
        · by_cases hdot : c = '.'
          · subst hdot
            by_cases hdd2 : isDig d = true <;>
              simp [tmCheck, tmMatch, hg, hgB, secFrac_dot, specTM, hmok, hdd2]
          · have hsf := secFrac_fail c d [] hgm h60 hdot
            simp [tmCheck, tmMatch, hg, hgB, hsf, specTM, hmok]
    · have hg := guardA_false a b hga
      have hok := hhOK_false a b hga
      simp [tmCheck, tmMatch, hg, specTM, hok]
  · -- [a, b, c, d, e]
    cases hg : (('0' ≤ a && a ≤ '2') && isDig b) with
    | false => simp [tmCheck, tmMatch, hg, specTM]
    | true =>
        by_cases hgm : isDig c = true ∧ isDig d = true ∧ digVal c ≤ 5
        · obtain ⟨hdc, hdd, h5c⟩ := hgm
          have hgB := guardB_true c d hdc hdd h5c
          have hsf := secFrac_digits c d [e] hdc hdd h5c
          simp [tmCheck, tmMatch, hg, hgB, hsf, secFrac_one, fracEnd_one, specTM]
        · have hgB := guardB_false c d hgm
          by_cases h60 : c = '6' ∧ d = '0'
          · obtain ⟨rfl, rfl⟩ := h60
            have hsf := secFrac_60 [e]
            simp [tmCheck, tmMatch, hg, hgB, hsf, secFrac_one, fracEnd_one, specTM]
          · by_cases hdot : c = '.'
            · subst hdot
              have hsf := secFrac_dot d [e]
              by_cases hdd : isDig d = true <;> by_cases hde : isDig e = true <;>
                simp [tmCheck, tmMatch, hg, hgB, hsf, secFrac_one, fracEnd_one, specTM,
                  hdd, hde]
            · have hsf := secFrac_fail c d [e] hgm h60 hdot
              simp [tmCheck, tmMatch, hg, hgB, hsf, secFrac_one, fracEnd_one, specTM]
  · -- a :: b :: c :: d :: e :: f :: rest
    by_cases hga : isDig a = true ∧ isDig b = true ∧ digVal a ≤ 2
    · obtain ⟨hda, hdb, h2a⟩ := hga
      have hg := guardA_true a b hda hdb h2a
      have hp : '0' ≤ a ∧ a ≤ '2' := by
        have hx := hg
        simp only [Bool.and_eq_true, decide_eq_true_eq] at hx
        exact ⟨hx.1.1, hx.1.2⟩
      by_cases hgm : isDig c = true ∧ isDig d = true ∧ digVal c ≤ 5
      · obtain ⟨hdc, hdd, h5c⟩ := hgm
        have hgB := guardB_true c d hdc hdd h5c
        have hpc : '0' ≤ c ∧ c ≤ '5' := by
          have hx := hgB
          simp only [Bool.and_eq_true, decide_eq_true_eq] at hx
          exact ⟨hx.1.1, hx.1.2⟩
        have hm59 : 10 * digVal c + digVal d ≤ 59 := by
          have := digVal_lt10 d hdd
          omega
        by_cases hse : isDig e = true ∧ isDig f = true ∧ digVal e ≤ 5
        · obtain ⟨hde, hdf, h5e⟩ := hse
          have hsf := secFrac_digits e f rest hde hdf h5e
          have hs60 : 10 * digVal e + digVal f ≤ 60 := by
            have := digVal_lt10 f hdf
            omega
          cases hfe : fracEnd rest with
          | some fr =>
              have hfr : fracOK rest = true := by rw [fracOK_iff, hfe]; rfl
              by_cases h23 : 10 * digVal a + digVal b ≤ 23
              · simp [tmCheck, tmMatch, hg, hp, hgB, hpc, hsf, hfe, specTM, hhOK, mmOK,
                  ssOK, hda, hdb, hdc, hdd, hde, hdf, h23, hm59, hs60, hfr,
                  Nat.not_lt.mpr h23]
              · simp [tmCheck, tmMatch, hg, hp, hgB, hpc, hsf, hfe, specTM, hhOK, mmOK,
                  ssOK, hda, hdb, hdc, hdd, hde, hdf, h23, hm59, hs60, hfr,
                  Nat.lt_of_not_le h23]
          | none =>
              have hde2 : e ≠ '.' := isDig_ne_dot e hde
              have hsf0 := secFrac_digits c d (e :: f :: rest) hdc hdd h5c
              have hfee : fracEnd (e :: f :: rest) = none := by
                unfold fracEnd
                simp [hde2]
              have hfr : fracOK rest = false := by rw [fracOK_iff, hfe]; rfl
              simp [tmCheck, tmMatch, hg, hp, hgB, hpc, hsf, hfe, hsf0, hfee, hdb, hdd,
                specTM, hfr]
        · by_cases h60 : e = '6' ∧ f = '0'
          · obtain ⟨rfl, rfl⟩ := h60
            have hsf := secFrac_60 rest
            cases hfe : fracEnd rest with
            | some fr =>
                have hfr : fracOK rest = true := by rw [fracOK_iff, hfe]; rfl
                by_cases h23 : 10 * digVal a + digVal b ≤ 23
                · simp [tmCheck, tmMatch, hg, hp, hgB, hpc, hsf, hfe, specTM, hhOK, mmOK,
                    ssOK, hda, hdb, hdc, hdd, h23, hm59, hfr, Nat.not_lt.mpr h23]
                  decide
                · simp [tmCheck, tmMatch, hg, hp, hgB, hpc, hsf, hfe, specTM, hhOK, mmOK,
                    ssOK, hda, hdb, hdc, hdd, h23, hm59, hfr, Nat.lt_of_not_le h23]
            | none =>
                have hsf0 := secFrac_digits c d ('6' :: '0' :: rest) hdc hdd h5c
                have h6d : ('6' : Char) ≠ '.' := by decide
                have hfee : fracEnd ('6' :: '0' :: rest) = none := by
                  unfold fracEnd
                  simp [h6d]
                have hfr : fracOK rest = false := by rw [fracOK_iff, hfe]; rfl
                simp [tmCheck, tmMatch, hg, hp, hgB, hpc, hsf, hfe, hsf0, hfee, hdb, hdd,
                  specTM, hfr]
          · by_cases hdot : e = '.'
            · subst hdot
              have hsf := secFrac_dot f rest
              have hsf0 := secFrac_digits c d ('.' :: f :: rest) hdc hdd h5c
              have hdig : isDig ('.' : Char) = false := by decide
              by_cases hcond : f :: rest ≠ [] ∧ (f :: rest).length ≤ 6 ∧ (f :: rest).all isDig
              · have hsf2 : secFrac ('.' :: f :: rest) = some (none, some (f :: rest)) := by
                  rw [hsf, if_pos hcond]
                have hfee : fracEnd ('.' :: f :: rest) = some (some (f :: rest)) := by
                  unfold fracEnd
                  simp only [eq_self_iff_true, if_true]
                  rw [if_pos hcond]
                simp [tmCheck, tmMatch, hg, hp, hgB, hpc, hsf2, hsf0, hfee, hdb, hdd,
                  specTM, ssOK, hdig]
              · have hsf2 : secFrac ('.' :: f :: rest) = none := by
                  rw [hsf, if_neg hcond]
                have hfee : fracEnd ('.' :: f :: rest) = none := by
                  unfold fracEnd
                  simp only [eq_self_iff_true, if_true]
                  rw [if_neg hcond]
                simp [tmCheck, tmMatch, hg, hp, hgB, hpc, hsf2, hsf0, hfee, hdb, hdd,
                  specTM, ssOK, hdig]
            · have hsf := secFrac_fail e f rest hse h60 hdot
              have hsf0 := secFrac_digits c d (e :: f :: rest) hdc hdd h5c
              have hssf := ssOK_false e f hse h60
              simp [tmCheck, tmMatch, hg, hp, hgB, hpc, hsf, hsf0, fracEnd, hdot,
                specTM, hssf]
      · have hgB := guardB_false c d hgm
        have hmok := mmOK_false c d hgm
        by_cases h60cd : c = '6' ∧ d = '0'
        · obtain ⟨rfl, rfl⟩ := h60cd
          have hsf := secFrac_60 (e :: f :: rest)
          by_cases hdote : e = '.'
          · subst hdote
            by_cases hcond : f :: rest ≠ [] ∧ (f :: rest).length ≤ 6 ∧ (f :: rest).all isDig
            · have hfee : fracEnd ('.' :: f :: rest) = some (some (f :: rest)) := by
                unfold fracEnd
                simp only [eq_self_iff_true, if_true]
                rw [if_pos hcond]
              simp [tmCheck, tmMatch, hg, hp, hgB, hsf, hfee, hdb, specTM, hmok]
            · have hfee : fracEnd ('.' :: f :: rest) = none := by
                unfold fracEnd
                simp only [eq_self_iff_true, if_true]
                rw [if_neg hcond]
              simp [tmCheck, tmMatch, hg, hp, hgB, hsf, hfee, hdb, specTM, hmok]
          · have hfee : fracEnd (e :: f :: rest) = none := by
              unfold fracEnd
              simp [hdote]
            simp [tmCheck, tmMatch, hg, hp, hgB, hsf, hfee, hdb, specTM, hmok]
        · by_cases hdotc : c = '.'
          · subst hdotc
            have hsf := secFrac_dot d (e :: f :: rest)
            by_cases hcond : d :: e :: f :: rest ≠ [] ∧ (d :: e :: f :: rest).length ≤ 6 ∧
                (d :: e :: f :: rest).all isDig
            · have hsf2 : secFrac ('.' :: d :: e :: f :: rest) =
                  some (none, some (d :: e :: f :: rest)) := by
                rw [hsf, if_pos hcond]
              simp [tmCheck, tmMatch, hg, hp, hgB, hsf2, hdb, specTM, hmok]
            · have hsf2 : secFrac ('.' :: d :: e :: f :: rest) = none := by
                rw [hsf, if_neg hcond]
              simp [tmCheck, tmMatch, hg, hp, hgB, hsf2, hdb, specTM, hmok]
          · have hsf := secFrac_fail c d (e :: f :: rest) hgm h60cd hdotc
            simp [tmCheck, tmMatch, hg, hp, hgB, hsf, specTM, hmok]
    · have hg := guardA_false a b hga
      have hok := hhOK_false a b hga
      simp [tmCheck, tmMatch, hg, specTM, hok]

theorem digChar_eq_zero (a : Nat) (h : a < 10) : digChar a = '0' ↔ a = 0 := by
  interval_cases a <;> decide

theorem valid_time_eq (s : String) :
    valid_time s = if s = "" then false else tmCheck (pyRstripL s.data) := rfl

theorem timeRecon_default_iff (S prec : Nat) (hS : S < 86400000000) :
    timeRecon S prec = DEFAULT_ANON_TIME ↔ (prec = 0 ∧ S < 2000000) := by
  constructor
  · intro h
    by_cases hpc : 0 < prec
    · exfalso
      rw [timeRecon, if_pos hpc] at h
      have hd : pad2 (S / 7200000000) ++ pad2 (S % 7200000000 / 120000000) ++
          pad2 (S % 120000000 / 2000000) ++ '.' :: (pad6 (anonFracOf S)).take prec =
          DEFAULT_ANON_TIME.data := congrArg String.data h
      have hlen := congrArg List.length hd
      simp [pad2, DEFAULT_ANON_TIME] at hlen
    · rw [timeRecon, if_neg hpc] at h
      have hd : digChar (S / 7200000000 / 10 % 10) :: digChar (S / 7200000000 % 10) ::
          digChar (S % 7200000000 / 120000000 / 10 % 10) ::
          digChar (S % 7200000000 / 120000000 % 10) ::
          digChar (S % 120000000 / 2000000 / 10 % 10) ::
          digChar (S % 120000000 / 2000000 % 10) :: [] =
          '0' :: '0' :: '0' :: '0' :: '0' :: '0' :: [] := congrArg String.data h
      simp only [List.cons.injEq, and_true] at hd
      obtain ⟨h1, h2, h3, h4, h5, h6⟩ := hd
      rw [digChar_eq_zero _ (Nat.mod_lt _ (by omega))] at h1 h2 h3 h4 h5 h6
      refine ⟨by omega, by omega⟩
  · rintro ⟨hp0, hS2⟩
    subst hp0
    rw [timeRecon, if_neg (by omega)]
    have h1 : S / 7200000000 = 0 := by omega
    have h2 : S % 7200000000 / 120000000 = 0 := by omega
    have h3 : S % 120000000 / 2000000 = 0 := by omega
    rw [h1, h2, h3]
    rfl

/-- Claim C7 (corrected).  (1) `valid_time` accepts exactly the strings
whose trailing ASCII whitespace (not only spaces: `"1230\n"` is also
accepted) strips to a match of the `TM` grammar `HH[MM[SS[.F{1,6}]]]`
with `HH ≤ 23`, `MM ≤ 59`, `SS ≤ 60` and left-to-right component
dependency.  (2) If the string is invalid or the patient id empty,
`_hash_time` returns `(0.0, "000000")`.  (3) Otherwise, when the slicing
parse raises (trailing whitespace can make an `int()` slice fail), the
exception escapes and nothing is returned.  (4) Otherwise the default
pair `(0.0, "000000")` is returned exactly when the per-patient offset
is `≡ 0 (mod 86400 s)`, the input has no fractional digits and the
parsed value is below two seconds — not only for invalid input, as the
claim states. -/
theorem claim_C7 :
    (∀ s, valid_time s = specTimeValid s) ∧
    (∀ s p, valid_time s = false ∨ p = "" → hash_time s p = some (0, DEFAULT_ANON_TIME)) ∧
    (∀ s p, valid_time s = true → p ≠ "" → hashTimeParse s.data = none →
      hash_time s p = none) ∧
    (∀ s p U prec, valid_time s = true → p ≠ "" → hashTimeParse s.data = some (U, prec) →
      U < 86400000000 →
      (hash_time s p = some (0, DEFAULT_ANON_TIME) ↔
        md5First8BE (utf8 p) % 86400000000 = 0 ∧ prec = 0 ∧ U < 2000000)) := by
  refine ⟨?_, ?_, ?_, ?_⟩
  · intro s
    by_cases hs : s = ""
    · subst hs
      decide
    · rw [valid_time_eq, if_neg hs]
      exact tmCheck_eq_specTM (pyRstripL s.data)
  · intro s p h
    unfold hash_time
    rw [if_pos]
    rcases h with h | h <;> simp [h]
  · intro s p hv hp hP
    unfold hash_time
    rw [if_neg (by simp [hv, hp]), hP]
  · intro s p U prec hv hp hP hU
    unfold hash_time
    rw [if_neg (by simp [hv, hp]), hP]
    dsimp only
    constructor
    · intro h
      simp only [Option.some.injEq, Prod.mk.injEq] at h
      obtain ⟨h0, hrec⟩ := h
      rw [h0, Nat.add_zero] at hrec
      obtain ⟨hp0, hS⟩ := (timeRecon_default_iff U prec hU).mp hrec
      exact ⟨h0, hp0, hS⟩
    · rintro ⟨h0, hp0, hS⟩
      rw [h0, Nat.add_zero, (timeRecon_default_iff U prec hU).mpr ⟨hp0, hS⟩]

/-- Witness for claim C7: a grammar agreement instance, an invalid input
returning the default, a valid input whose parse raises, and the default
characterization at `01:02:03`. -/
theorem claim_C7_witness :
    valid_time "1230" = specTimeValid "1230" ∧
    hash_time "123" "1" = some (0, DEFAULT_ANON_TIME) ∧
    hash_time "1234  " "1" = none ∧
    (hash_time "010203" "1" = some (0, DEFAULT_ANON_TIME) ↔
      md5First8BE (utf8 "1") % 86400000000 = 0 ∧ 0 = 0 ∧ 3723000000 < 2000000) :=
  ⟨claim_C7.1 "1230",
   claim_C7.2.1 "123" "1" (Or.inl (by decide)),
   claim_C7.2.2.1 "1234  " "1" (by decide) (by decide) (by decide),
   claim_C7.2.2.2 "010203" "1" 3723000000 0 (by decide) (by decide) (by decide) (by decide)⟩

/-- Counterexample to claim C7 as stated: `valid_time` right-strips ALL
whitespace, not only spaces, so `"1230\n"` is accepted although after
removing trailing spaces it does not match the `TM` grammar. -/
theorem claim_C7_counterexample :
    valid_time "1230\n" = true ∧ claimTimeValid "1230\n" = false := by decide

end LAI
